import Mathlib

/-!
# VoxelSurfing: the heightfield raycaster of `src/main.c`

A shallow embedding of `MapData_Load`, `ClampU8`, `ClampCamera` and
`RenderVoxelSurf`.

Conventions of the embedding:

* `float` values are rationals (`ℚ`): every finite `float` is a rational.
  `f32` rounds a rational to the nearest `float` and `floatOfInt` is the
  conversion `(float)i`. `ClampCamera` and the sum `camZ + 1.0f` behind
  `camZu8` are rounded as the source rounds them; the remaining arithmetic of
  `RenderVoxelSurf` is carried out without rounding ("exact arithmetic").
* `int` values are `Int`; a cast to `uint32_t` or `size_t` is an explicit
  reduction modulo `2^32` or `2^64`, and the 32-bit variable `idx` wraps
  modulo `2^32` (`wrapI32`).
* A pointer to a buffer is `Option (List Nat)`; `NULL` is `none`.
* `cosf`, `sinf`, `tanf`, the image decoder and `malloc` are not part of the
  program text; they are parameters (`Libm`, `Sys`).
-/

namespace VoxelSurfing

/-! ## C scalar conversions -/

/-- Largest value of a C `int`. -/
def INT_MAX : Int := 2147483647

/-- Conversion `(uint32_t)i` of an `int`. -/
def u32 (i : Int) : Int := i % 4294967296

/-- Conversion `(size_t)i` of an `int` (64-bit `size_t`). -/
def sizeT (i : Int) : Int := i % 18446744073709551616

/-- The value a 32-bit `int` holds after an arithmetic result `i`: the
two's-complement wrap into `[-2^31, 2^31)`. -/
def wrapI32 (i : Int) : Int := (i + 2147483648) % 4294967296 - 2147483648

/-- Number of binary digits of `n` (`fuel` bounds the recursion). -/
def bitLen : Nat → Nat → Nat
  | 0, _ => 0
  | fuel + 1, n => if n = 0 then 0 else bitLen fuel (n / 2) + 1

/-- Position of the leading binary digit of `n` (0 for `n = 0`). -/
def ilog2 (n : Nat) : Nat := bitLen n n - 1

/-- The rational `2^u`. -/
def pow2 (u : Int) : ℚ :=
  if 0 ≤ u then ((2 ^ u.toNat : Nat) : ℚ) else 1 / ((2 ^ (-u).toNat : Nat) : ℚ)

/-- Rounding of a rational to the nearest `float` (24-bit significand, ties to
even, gradual underflow below `2^-126`). Values beyond the largest `float` are
not capped. -/
def f32 (q : ℚ) : ℚ :=
  if q = 0 then 0
  else
    let a : ℚ := |q|
    let e0 : Int := (ilog2 a.num.natAbs : Int) - (ilog2 a.den : Int)
    let e : Int := if pow2 e0 ≤ a then e0 else e0 - 1
    let u : Int := max e (-126) - 23
    let m : ℚ := a / pow2 u
    let lo : Int := ⌊m⌋
    let r : Int :=
      if m - lo < 1 / 2 then lo
      else if m - lo > 1 / 2 then lo + 1
      else if lo % 2 = 0 then lo else lo + 1
    (if q < 0 then -1 else 1) * (r * pow2 u)

/-- Conversion `(float)i` of an integer: the nearest `float`, ties to even.
The spacing of the `float`s at `|i|` is `2^(ilog2 |i| - 23)`, which is 1 up to
`2^24`. -/
def floatOfInt (i : Int) : ℚ :=
  let a : Nat := i.natAbs
  let q : Nat := 2 ^ (ilog2 a - 23)
  let lo : Nat := a / q
  let rem : Nat := a % q
  let r : Nat :=
    if 2 * rem < q then lo
    else if 2 * rem > q then lo + 1
    else if lo % 2 = 0 then lo else lo + 1
  ((i.sign * ((r * q : Nat) : Int) : Int) : ℚ)

/-- Conversion `(int)v` of a floating-point value: truncation toward zero. -/
def truncToInt (v : ℚ) : Int := if 0 ≤ v then ⌊v⌋ else ⌈v⌉

/-- Read `p[i]`; a read through `NULL` or outside the buffer yields `0`. -/
def readAt (p : Option (List Nat)) (i : Int) : Nat :=
  match p with
  | some l => if 0 ≤ i then l.getD i.toNat 0 else 0
  | none => 0

/-! ## Data model -/

/-- Decoded image: `struct ImageRGBA`. -/
structure ImageRGBA where
  w : Int
  h : Int
  pixels : List Nat
  deriving DecidableEq, Repr

/-- Terrain grid: `struct MapData` (`depth` holds the per-cell heights). -/
structure MapData where
  w : Int
  h : Int
  color : Option (List Nat)
  depth : Option (List Nat)
  deriving DecidableEq, Repr

/-- Camera state: `struct Camera`. -/
structure Camera where
  x : ℚ
  y : ℚ
  z : ℚ
  yaw : ℚ
  fov : ℚ
  deriving DecidableEq, Repr

/-- The fields of `struct App` used by the core. -/
structure App where
  winW : Int
  winH : Int
  framebuffer : List Nat
  map : MapData
  cam : Camera
  deriving DecidableEq, Repr

/-- Height stored for cell `(cx, cy)` of the grid. -/
def heightAt (m : MapData) (cx cy : Int) : Nat := readAt m.depth (cx + cy * m.w)

/-! ## `ClampU8` and `ClampCamera` -/

/-- Source: `ClampU8` (main.c 247-252). -/
def ClampU8 (v : ℚ) : Int :=
  if v ≤ 0 then 0
  else if v ≥ 255 then 255
  else truncToInt v % 256

/-- Source: `ClampCamera` (main.c 254-267). The bounds `map.w - 2` and
`map.h - 2` are converted to `float` for the comparison and the assignment, and
`heightUnder` is a `float` sum. -/
def ClampCamera (app : App) : App :=
  let z1 : ℚ := if app.cam.z > 400 then 400 else app.cam.z
  let x1 : ℚ := if app.cam.x < 1 then 1 else app.cam.x
  let y1 : ℚ := if app.cam.y < 1 then 1 else app.cam.y
  let x2 : ℚ := if x1 ≥ floatOfInt (app.map.w - 2) then floatOfInt (app.map.w - 2) else x1
  let y2 : ℚ := if y1 ≥ floatOfInt (app.map.h - 2) then floatOfInt (app.map.h - 2) else y1
  let ix : Int := truncToInt x2
  let iy : Int := truncToInt y2
  let idx : Int := sizeT (sizeT ix + sizeT iy * sizeT app.map.w)
  let heightUnder : ℚ := f32 (floatOfInt (readAt app.map.depth idx : Int) + 1)
  let z2 : ℚ := if z1 < heightUnder then heightUnder else z1
  { app with cam := { app.cam with x := x2, y := y2, z := z2 } }

/-! ## `MapData_Clear` and `MapData_Load` -/

/-- What `MapData_Load` obtains from outside the program text: the decoder
behind `LoadImageRGBA` (`none` when it returns `false`) and whether each of the
three `malloc` calls of `MapData_Load` succeeds. -/
structure Sys where
  LoadImageRGBA : String → Option ImageRGBA
  mallocColor : Bool
  mallocDepth : Bool
  mallocGray : Bool

/-- Source: `MapData_Clear` (main.c 133-141). -/
def MapData_Clear (map : MapData) : MapData :=
  { map with color := none, depth := none, w := 0, h := 0 }

/-- Repacking of one RGBA pixel into the renderer's layout (main.c 187-191). -/
def packColor (rgba : Nat) : Nat :=
  let r := rgba &&& 0xFF
  let g := (rgba >>> 8) &&& 0xFF
  let b := (rgba >>> 16) &&& 0xFF
  (b ||| (g <<< 8) ||| (r <<< 16)) % 4294967296

/-- Source: `MapData_Load` (main.c 143-221). Returns the `bool` result and the
grid left in `*map`. -/
def MapData_Load (sys : Sys) (map : MapData) (name : Option String) : Bool × MapData :=
  match name with
  | none => (false, map)
  | some nm =>
    let base := "maps/" ++ nm ++ "/"
    let colorPath := base ++ "Color.png"
    let depthPath := base ++ "Depth.png"
    match sys.LoadImageRGBA colorPath with
    | none => (false, map)
    | some colorImg =>
      match sys.LoadImageRGBA depthPath with
      | none => (false, map)
      | some depthImg =>
        if colorImg.w ≠ depthImg.w ∨ colorImg.h ≠ depthImg.h then (false, map)
        else
          let map1 := MapData_Clear map
          let map2 := { map1 with w := colorImg.w, h := colorImg.h }
          if !sys.mallocColor || !sys.mallocDepth then (false, MapData_Clear map2)
          else
            let count : Nat := (sizeT (sizeT map2.w * sizeT map2.h)).toNat
            let color := (List.range count).map fun i => packColor (colorImg.pixels.getD i 0)
            let depth0 := (List.range count).map fun i => colorImg.pixels.getD i 0 &&& 0xFF
            let map3 := { map2 with color := some color, depth := some depth0 }
            if !sys.mallocGray then (false, MapData_Clear map3)
            else
              let depthGray := (List.range count).map fun i => depthImg.pixels.getD i 0 &&& 0xFF
              (true, { map3 with depth := some depthGray })

/-! ## `RenderVoxelSurf` -/

/-- The C library functions called by `RenderVoxelSurf`. -/
structure Libm where
  cosf : ℚ → ℚ
  sinf : ℚ → ℚ
  tanf : ℚ → ℚ

/-- Values computed once per frame (main.c 271-305). -/
structure FrameConsts where
  winW : Int
  winH : Int
  mapW : Int
  mapH : Int
  camX : ℚ
  camY : ℚ
  camZ : ℚ
  camZu8 : Int
  forwardX : ℚ
  forwardY : ℚ
  rightX : ℚ
  rightY : ℚ
  halfWidth : ℚ
  centerY : ℚ
  scale : ℚ
  invScale : ℚ
  invWidth : ℚ
  depthPtr : Option (List Nat)
  colorPtr : Option (List Nat)

/-- Source: main.c 271-305. The sum `camZ + 1.0f` is rounded to `float` before
`ClampU8` converts it. -/
def frameConsts (m : Libm) (app : App) : FrameConsts :=
  let winW := app.winW
  let winH := app.winH
  let camZ := app.cam.z
  let yaw := app.cam.yaw
  let forwardX := m.cosf yaw
  let forwardY := m.sinf yaw
  let fov := app.cam.fov
  let aspect : ℚ := (winW : ℚ) / (winH : ℚ)
  let halfHeight := m.tanf (fov * (1 / 2))
  let centerY : ℚ := (1 / 2) * (winH : ℚ)
  let scale := centerY / halfHeight
  { winW := winW, winH := winH, mapW := app.map.w, mapH := app.map.h,
    camX := app.cam.x, camY := app.cam.y, camZ := camZ,
    camZu8 := ClampU8 (f32 (camZ + 1)),
    forwardX := forwardX, forwardY := forwardY,
    rightX := -forwardY, rightY := forwardX,
    halfWidth := halfHeight * aspect,
    centerY := centerY, scale := scale, invScale := 1 / scale,
    invWidth := 1 / (winW : ℚ),
    depthPtr := app.map.depth, colorPtr := app.map.color }

/-- Values fixed for one screen column (main.c 307-343). `columnBottom` is the
index in `pixels` of the bottom pixel of the column. -/
structure ColConsts where
  columnBottom : Int
  forwardDot : ℚ
  stepX : Int
  stepY : Int
  tDeltaX : ℚ
  tDeltaY : ℚ
  yStride : Int

/-- One array access of the traversal: the index used and the cell the
traversal was at. -/
structure Access where
  idx : Int
  cellX : Int
  cellY : Int
  deriving DecidableEq, Repr

/-- Variables of the `while (true)` loop of one column, the pixel buffer, and
two records kept for the statements below: the array accesses made and the
pixel writes made (row counted from the bottom of the screen, index written),
each in program order. -/
structure ColState where
  highestSeenY : Int
  slopeThreshold : ℚ
  cellX : Int
  cellY : Int
  tMaxX : ℚ
  tMaxY : ℚ
  tCur : ℚ
  idx : Int
  pixels : List Nat
  reads : List Access
  writes : List (Int × Int)
  deriving DecidableEq, Repr

/-- The literal `1e30f`: the `float` nearest to `10^30`. -/
def HUGE : ℚ := 1000000015047466219876688855040

/-- Source: main.c 307-308 and 312-343, for column `x`. The `int` variables
`idx` and `yStride` hold their values modulo `2^32`. -/
def colInit (f : FrameConsts) (x : Int) (pixels : List Nat) : ColConsts × ColState :=
  let highestSeenY : Int := 0
  let slopeThreshold : ℚ := (1 - f.centerY) * f.invScale
  let screenX : ℚ := ((x : ℚ) * f.invWidth) * 2 - 1
  let dirX : ℚ := f.forwardX + f.rightX * (screenX * f.halfWidth)
  let dirY : ℚ := f.forwardY + f.rightY * (screenX * f.halfWidth)
  let forwardDot : ℚ := dirX * f.forwardX + dirY * f.forwardY
  let cellX : Int := truncToInt f.camX
  let cellY : Int := truncToInt f.camY
  let stepX : Int := if dirX ≥ 0 then 1 else -1
  let stepY : Int := if dirY ≥ 0 then 1 else -1
  let invDirX : ℚ := if dirX ≠ 0 then 1 / dirX else HUGE
  let invDirY : ℚ := if dirY ≠ 0 then 1 / dirY else HUGE
  let nextBoundaryX : ℚ := ((cellX + (if stepX > 0 then 1 else 0) : Int) : ℚ)
  let nextBoundaryY : ℚ := ((cellY + (if stepY > 0 then 1 else 0) : Int) : ℚ)
  let tMaxX : ℚ := (nextBoundaryX - f.camX) * invDirX
  let tMaxY : ℚ := (nextBoundaryY - f.camY) * invDirY
  let tDeltaX : ℚ := |invDirX|
  let tDeltaY : ℚ := |invDirY|
  let tCur : ℚ := 0
  let idx : Int := wrapI32 (cellX + cellY * f.mapW)
  let yStride : Int := wrapI32 (stepY * f.mapW)
  ({ columnBottom := (f.winH - 1) * f.winW + x, forwardDot := forwardDot,
     stepX := stepX, stepY := stepY, tDeltaX := tDeltaX, tDeltaY := tDeltaY,
     yStride := yStride },
   { highestSeenY := highestSeenY, slopeThreshold := slopeThreshold,
     cellX := cellX, cellY := cellY, tMaxX := tMaxX, tMaxY := tMaxY, tCur := tCur,
     idx := idx, pixels := pixels, reads := [], writes := [] })

/-- Source: `stepInX` (main.c 347). -/
def stepInX (s : ColState) : Bool := decide (s.tMaxX < s.tMaxY)

/-- Source: `tNext` (main.c 348). -/
def tNext (s : ColState) : ℚ := if stepInX s then s.tMaxX else s.tMaxY

/-- Source: `height` (main.c 350). -/
def cellHeight (f : FrameConsts) (s : ColState) : Int := (readAt f.depthPtr s.idx : Int)

/-- Source: `tCandidate` (main.c 352). -/
def tCandidate (f : FrameConsts) (s : ColState) : ℚ :=
  if cellHeight f s < f.camZu8 then tNext s else s.tCur

/-- Source: `forwardDistCandidate` (main.c 353). -/
def forwardDistCandidate (f : FrameConsts) (c : ColConsts) (s : ColState) : ℚ :=
  tCandidate f s * c.forwardDot

/-- Source: `requiredHeight` (main.c 355-356). -/
def requiredHeight (f : FrameConsts) (c : ColConsts) (s : ColState) : ℚ :=
  f.camZ + s.slopeThreshold * forwardDistCandidate f c s

/-- Source: `yEntry` (main.c 360-362). A quotient by a zero
`forwardDistCandidate` is 0 here, the convention of `ℚ`; IEEE arithmetic gives
an infinity or a NaN there. -/
def yEntry (f : FrameConsts) (c : ColConsts) (s : ColState) : ℚ :=
  let num : ℚ := (cellHeight f s : ℚ) - f.camZ
  let invForward : ℚ := 1 / forwardDistCandidate f c s
  f.centerY + f.scale * num * invForward

/-- Source: `yInt` (main.c 363). The truncation is the mathematical one; C
leaves `(int)yEntry` undefined when the value is outside the range of `int`. -/
def yInt (f : FrameConsts) (c : ColConsts) (s : ColState) : Int :=
  truncToInt (yEntry f c s)

/-- Store `p[i] = v`; a store outside the buffer changes nothing. -/
def writeAt (p : List Nat) (i : Int) (v : Nat) : List Nat :=
  if 0 ≤ i then p.set i.toNat v else p

/-- Source: the `for (y = highestSeenY; y < highestY; y++)` loop (main.c 374-378),
run for `n` iterations from row `y` with `dat` the index written next. -/
def fillRows (winW : Int) (col : Nat) :
    Nat → Int → Int → List Nat → List (Int × Int) → List Nat × List (Int × Int)
  | 0, _, _, px, ws => (px, ws)
  | n + 1, y, dat, px, ws =>
    fillRows winW col n (y + 1) (dat - winW) (writeAt px dat col) (ws ++ [(y, dat)])

/-- Source: the body of `if (yInt > highestSeenY)` (main.c 365-385), entered
with `yI` as `yInt`. The `Bool` is `columnDone`. The pointer `dat` is the index
in `pixels` it points to. -/
def paint (f : FrameConsts) (c : ColConsts) (yI : Int) (s : ColState) : ColState × Bool :=
  if yI > s.highestSeenY then
    let columnDone : Bool := decide (yI ≥ f.winH)
    let highestY : Int := if columnDone then f.winH - 1 else yI
    let col : Nat := readAt f.colorPtr s.idx
    let dat : Int := c.columnBottom - s.highestSeenY * f.winW
    let out := fillRows f.winW col (highestY - s.highestSeenY).toNat s.highestSeenY dat
      s.pixels s.writes
    ({ s with
        highestSeenY := highestY,
        slopeThreshold := (((highestY + 1 : Int) : ℚ) - f.centerY) * f.invScale,
        pixels := out.1, writes := out.2,
        reads := s.reads ++ [{ idx := s.idx, cellX := s.cellX, cellY := s.cellY }] },
     columnDone)
  else (s, false)

/-- Why the loop of a column was left. -/
inductive Stop where
  | columnDone
  | leftGrid
  deriving DecidableEq, Repr

/-- Source: the traversal step (main.c 388-403). -/
def advance (f : FrameConsts) (c : ColConsts) (inX : Bool) (s : ColState) :
    ColState × Option Stop :=
  if inX then
    let s1 := { s with tCur := s.tMaxX, cellX := s.cellX + c.stepX,
                       idx := wrapI32 (s.idx + c.stepX), tMaxX := s.tMaxX + c.tDeltaX }
    if u32 s1.cellX ≥ u32 f.mapW then (s1, some Stop.leftGrid) else (s1, none)
  else
    let s1 := { s with tCur := s.tMaxY, cellY := s.cellY + c.stepY,
                       idx := wrapI32 (s.idx + c.yStride), tMaxY := s.tMaxY + c.tDeltaY }
    if u32 s1.cellY ≥ u32 f.mapH then (s1, some Stop.leftGrid) else (s1, none)

/-- The state with the height read of this iteration recorded. -/
def noteVisit (s : ColState) : ColState :=
  { s with reads := s.reads ++ [{ idx := s.idx, cellX := s.cellX, cellY := s.cellY }] }

/-- Source: the occlusion test and projection of one iteration (main.c 350-386).
The `Bool` is `columnDone`: whether the loop is left by `break` at line 384. -/
def project (f : FrameConsts) (c : ColConsts) (s : ColState) : ColState × Bool :=
  if (cellHeight f s : ℚ) > requiredHeight f c s then
    paint f c (yInt f c s) (noteVisit s)
  else (noteVisit s, false)

/-- Source: one iteration of the `while (true)` loop (main.c 345-404). -/
def colStep (f : FrameConsts) (c : ColConsts) (s : ColState) : ColState × Option Stop :=
  if (project f c s).2 then ((project f c s).1, some Stop.columnDone)
  else advance f c (stepInX s) (project f c s).1

/-- The loop run for at most `n` iterations: the state reached and, if the
loop was left, why. -/
def colRun (f : FrameConsts) (c : ColConsts) : Nat → ColState → ColState × Option Stop
  | 0, s => (s, none)
  | n + 1, s =>
    match colStep f c s with
    | (s1, some r) => (s1, some r)
    | (s1, none) => colRun f c n s1

/-- The state at the start of iteration `n` (counted from 0) of the loop, if
the loop gets that far. -/
def colStateAt (f : FrameConsts) (c : ColConsts) : Nat → ColState → Option ColState
  | 0, s => some s
  | n + 1, s =>
    match colStep f c s with
    | (_, some _) => none
    | (s1, none) => colStateAt f c n s1

/-- The background colour `0x00202020`. -/
def BACKGROUND : Nat := 0x00202020

/-- Source: the clearing loop (main.c 276-279). -/
def clearPixels (pixels : List Nat) (pixelCount : Int) : List Nat :=
  (List.range pixels.length).map fun (i : Nat) =>
    if Int.ofNat i < pixelCount then BACKGROUND else pixels.getD i 0

/-- Source: the `for (x = 0; x < winW; x++)` loop (main.c 310-407), for the
columns `x, x+1, ...` (`n` of them). `none` when a column needs more than
`fuel` iterations. -/
def renderColumns (f : FrameConsts) (fuel : Nat) : Nat → Int → List Nat → Option (List Nat)
  | 0, _, px => some px
  | n + 1, x, px =>
    match colRun f (colInit f x px).1 fuel (colInit f x px).2 with
    | (s, some _) => renderColumns f fuel n (x + 1) s.pixels
    | (_, none) => none

/-- Source: `RenderVoxelSurf` (main.c 269-408). -/
def RenderVoxelSurf (m : Libm) (app : App) (fuel : Nat) : Option App :=
  let f := frameConsts m app
  let pixelCount : Int := sizeT (sizeT f.winW * sizeT f.winH)
  match renderColumns f fuel f.winW.toNat 0 (clearPixels app.framebuffer pixelCount) with
  | some px => some { app with framebuffer := px }
  | none => none

/-- The per-column constants of column `x` of a frame. -/
def colConsts (m : Libm) (app : App) (x : Int) : ColConsts :=
  (colInit (frameConsts m app) x []).1

/-- The loop state with which column `x` of a frame starts, on pixel buffer `px`. -/
def colStart (m : Libm) (app : App) (x : Int) (px : List Nat) : ColState :=
  (colInit (frameConsts m app) x px).2

/-! ## The renderer without the occlusion shortcut

The variant named in the specification of the shortcut: every visited cell is
projected and only the test `yInt > highestSeenY` decides whether it paints. -/

/-- Variant of `project` without the test `height > requiredHeight`. -/
def projectAll (f : FrameConsts) (c : ColConsts) (s : ColState) : ColState × Bool :=
  paint f c (yInt f c s) (noteVisit s)

/-- Variant of `colStep` built on `projectAll`. -/
def colStepAll (f : FrameConsts) (c : ColConsts) (s : ColState) : ColState × Option Stop :=
  if (projectAll f c s).2 then ((projectAll f c s).1, some Stop.columnDone)
  else advance f c (stepInX s) (projectAll f c s).1

/-- Variant of `colRun` built on `colStepAll`. -/
def colRunAll (f : FrameConsts) (c : ColConsts) : Nat → ColState → ColState × Option Stop
  | 0, s => (s, none)
  | n + 1, s =>
    match colStepAll f c s with
    | (s1, some r) => (s1, some r)
    | (s1, none) => colRunAll f c n s1

/-- Variant of `renderColumns` built on `colRunAll`. -/
def renderColumnsAll (f : FrameConsts) (fuel : Nat) : Nat → Int → List Nat → Option (List Nat)
  | 0, _, px => some px
  | n + 1, x, px =>
    match colRunAll f (colInit f x px).1 fuel (colInit f x px).2 with
    | (s, some _) => renderColumnsAll f fuel n (x + 1) s.pixels
    | (_, none) => none

/-- Variant of `RenderVoxelSurf` built on `renderColumnsAll`. -/
def RenderVoxelSurfAll (m : Libm) (app : App) (fuel : Nat) : Option App :=
  let f := frameConsts m app
  let pixelCount : Int := sizeT (sizeT f.winW * sizeT f.winH)
  match renderColumnsAll f fuel f.winW.toNat 0 (clearPixels app.framebuffer pixelCount) with
  | some px => some { app with framebuffer := px }
  | none => none

/-! ## Predicates used in the statements -/

/-- The traversal is at a cell of the grid. -/
def CellIn (f : FrameConsts) (s : ColState) : Prop :=
  0 ≤ s.cellX ∧ s.cellX < f.mapW ∧ 0 ≤ s.cellY ∧ s.cellY < f.mapH

/-- The traversal is at a cell of the grid and `idx` is that cell's index. -/
def InGrid (f : FrameConsts) (s : ColState) : Prop :=
  0 ≤ s.cellX ∧ s.cellX < f.mapW ∧ 0 ≤ s.cellY ∧ s.cellY < f.mapH ∧
  s.idx = s.cellX + s.cellY * f.mapW

/-- An array access was made at a cell of the grid. -/
def AccessCellOk (f : FrameConsts) (a : Access) : Prop :=
  0 ≤ a.cellX ∧ a.cellX < f.mapW ∧ 0 ≤ a.cellY ∧ a.cellY < f.mapH

/-- An array access was made at a cell of the grid, with that cell's index,
inside the `mapW * mapH` entries of the arrays. -/
def AccessOk (f : FrameConsts) (a : Access) : Prop :=
  a.idx = a.cellX + a.cellY * f.mapW ∧ 0 ≤ a.cellX ∧ a.cellX < f.mapW ∧
  0 ≤ a.cellY ∧ a.cellY < f.mapH ∧ 0 ≤ a.idx ∧ a.idx < f.mapW * f.mapH

/-- The per-axis steps are unit steps. -/
def StepsOk (c : ColConsts) : Prop :=
  (c.stepX = 1 ∨ c.stepX = -1) ∧ (c.stepY = 1 ∨ c.stepY = -1)

/-- Number of steps, counted over both axes, that the traversal can still take
before one of them leaves the grid. -/
def exitDist (f : FrameConsts) (c : ColConsts) (s : ColState) : Int :=
  (if c.stepX = 1 then f.mapW - s.cellX else s.cellX + 1) +
  (if c.stepY = 1 then f.mapH - s.cellY else s.cellY + 1)

/-- The pixel writes made so far are the rows `0, 1, ..., highestSeenY - 1`
(from the bottom of the screen), in that order, each at its own pixel of the
column, and `highestSeenY` is a row of the screen. -/
def RowsInv (f : FrameConsts) (c : ColConsts) (s : ColState) : Prop :=
  0 ≤ s.highestSeenY ∧ s.highestSeenY ≤ f.winH - 1 ∧
  s.writes = (List.range s.highestSeenY.toNat).map
    (fun i => (Int.ofNat i, c.columnBottom - Int.ofNat i * f.winW))

/-- The distance travelled does not exceed either pending crossing distance. -/
def TInv (s : ColState) : Prop := s.tCur ≤ s.tMaxX ∧ s.tCur ≤ s.tMaxY

/-- The slope threshold is the one recomputed from the highest filled row. -/
def SlopeInv (f : FrameConsts) (s : ColState) : Prop :=
  0 ≤ s.highestSeenY ∧
  s.slopeThreshold = (((s.highestSeenY + 1 : Int) : ℚ) - f.centerY) * f.invScale

/-! ## Concrete inputs -/

/-- The `float` nearest to a right angle (pi/2), as a field of view. -/
def RIGHT_ANGLE : ℚ := 13176795 / 8388608

/-- Library results at the arguments the inputs below use: `cosf(0) = 1`,
`sinf(0) = 0`, and `tanf` of half of `RIGHT_ANGLE` is 1. -/
def axisLibm : Libm := { cosf := fun _ => 1, sinf := fun _ => 0, tanf := fun _ => 1 }

/-- A 4x4 grid, flat except for a wall of height 200 at cell (2,1), seen on a
2x2 screen by a camera at (1.5, 1.5, 1) looking along +x (`yaw = 0`). Cell
`(cx, cy)` has index `cx + 4 * cy` and colour `cx + 4 * cy + 1`. -/
def wallDemo : App :=
  { winW := 2, winH := 2, framebuffer := [0, 0, 0, 0],
    map := { w := 4, h := 4,
             color := some [1, 2, 3, 4, 5, 6, 7, 8, 9, 10, 11, 12, 13, 14, 15, 16],
             depth := some [0, 0, 0, 0, 0, 0, 200, 0, 0, 0, 0, 0, 0, 0, 0, 0] },
    cam := { x := 3 / 2, y := 3 / 2, z := 1, yaw := 0, fov := RIGHT_ANGLE } }

/-- The grid and screen of `wallDemo` with the wall lowered to height 5 and the
camera raised to `z = 5`, level with the top of the wall. -/
def levelDemo : App :=
  { winW := 2, winH := 2, framebuffer := [0, 0, 0, 0],
    map := { w := 4, h := 4,
             color := some [1, 2, 3, 4, 5, 6, 7, 8, 9, 10, 11, 12, 13, 14, 15, 16],
             depth := some [0, 0, 0, 0, 0, 0, 5, 0, 0, 0, 0, 0, 0, 0, 0, 0] },
    cam := { x := 3 / 2, y := 3 / 2, z := 5, yaw := 0, fov := RIGHT_ANGLE } }

/-- A 3x3 grid with a wall of height 10 at cell (1,0) and the camera at (1, 1, 1):
on the grid line `y = 1`, as `ClampCamera` leaves a camera pushed against the
low edge of the map. -/
def edgeDemo : App :=
  { winW := 2, winH := 2, framebuffer := [0, 0, 0, 0],
    map := { w := 3, h := 3,
             color := some [1, 2, 3, 4, 5, 6, 7, 8, 9],
             depth := some [0, 10, 0, 0, 0, 0, 0, 0, 0] },
    cam := { x := 1, y := 1, z := 1, yaw := 0, fov := RIGHT_ANGLE } }

/-- A 50000x50000 grid, all heights 0, with the camera in cell (49997, 49997),
whose index 2499899997 exceeds `INT_MAX`. -/
def hugeDemo : App :=
  { winW := 2, winH := 2, framebuffer := [0, 0, 0, 0],
    map := { w := 50000, h := 50000,
             color := some (List.replicate 2500000000 0),
             depth := some (List.replicate 2500000000 0) },
    cam := { x := 99995 / 2, y := 99995 / 2, z := 1, yaw := 0, fov := RIGHT_ANGLE } }

/-- A grid already loaded before a call of `MapData_Load`. -/
def oldMap : MapData :=
  { w := 1, h := 1, color := some [0x112233], depth := some [7] }

/-- Both images decode (1x1, equal dimensions) and the first `malloc` of
`MapData_Load` fails. -/
def sysAllocFails : Sys :=
  { LoadImageRGBA := fun _ => some { w := 1, h := 1, pixels := [0xFF445566] },
    mallocColor := false, mallocDepth := true, mallocGray := true }

/-! ## Facts about the conversions -/

theorem truncToInt_of_nonneg {v : ℚ} (hv : 0 ≤ v) : truncToInt v = ⌊v⌋ := by
  simp [truncToInt, hv]

theorem wrapI32_of_range (i : Int) (h0 : -2147483648 ≤ i) (h1 : i ≤ INT_MAX) :
    wrapI32 i = i := by
  unfold INT_MAX at h1
  unfold wrapI32
  omega

/-- Both roundings at integers that are not `float`s: 16777219 lies between
16777218 and 16777220, and 33554438 is halfway between 33554436 and 33554440. -/
theorem rounding_samples :
    floatOfInt 16777219 = 16777220 ∧ f32 16777219 = 16777220 ∧
    floatOfInt 33554438 = 33554440 ∧ f32 33554438 = 33554440 ∧
    floatOfInt 16777217 = 16777216 ∧ f32 16777217 = 16777216 := by
  decide!

/-- The rounding of `camZ + 1.0f` is visible in `camZu8`: for
`camZ = 2 - 2^-23` the sum rounds to 3, where the exact sum truncates to 2. -/
theorem camZu8_rounds_sum :
    ClampU8 (f32 ((2 - 1 / 8388608) + 1)) = 3 ∧ ClampU8 ((2 - 1 / 8388608) + 1) = 2 := by
  decide!

/-! ## C1: `ClampCamera` and the Camera Constraint invariant -/

theorem paint_keeps (f : FrameConsts) (c : ColConsts) (yI : Int) (s : ColState) :
    (paint f c yI s).1.cellX = s.cellX ∧ (paint f c yI s).1.cellY = s.cellY ∧
    (paint f c yI s).1.idx = s.idx ∧ (paint f c yI s).1.tMaxX = s.tMaxX ∧
    (paint f c yI s).1.tMaxY = s.tMaxY ∧ (paint f c yI s).1.tCur = s.tCur := by
  unfold paint
  split_ifs <;> simp

theorem project_keeps (f : FrameConsts) (c : ColConsts) (s : ColState) :
    (project f c s).1.cellX = s.cellX ∧ (project f c s).1.cellY = s.cellY ∧
    (project f c s).1.idx = s.idx ∧ (project f c s).1.tMaxX = s.tMaxX ∧
    (project f c s).1.tMaxY = s.tMaxY ∧ (project f c s).1.tCur = s.tCur := by
  unfold project
  split_ifs
  · exact paint_keeps f c _ (noteVisit s)
  · simp [noteVisit]

theorem project_reads (f : FrameConsts) (c : ColConsts) (s : ColState) (a : Access)
    (ha : a ∈ (project f c s).1.reads) :
    a ∈ s.reads ∨ a = { idx := s.idx, cellX := s.cellX, cellY := s.cellY } := by
  unfold project paint at ha
  split_ifs at ha <;> simp [noteVisit] at ha <;> tauto

theorem advance_reads (f : FrameConsts) (c : ColConsts) (b : Bool) (p : ColState) :
    (advance f c b p).1.reads = p.reads := by
  unfold advance
  cases b <;> simp <;> split_ifs <;> rfl

theorem index_in_range (f : FrameConsts) (cx cy : Int) (h1 : 0 ≤ cx) (h2 : cx < f.mapW)
    (h3 : 0 ≤ cy) (h4 : cy < f.mapH) :
    0 ≤ cx + cy * f.mapW ∧ cx + cy * f.mapW < f.mapW * f.mapH := by
  have ha : 0 ≤ cy * f.mapW := mul_nonneg h3 (by omega)
  have hb : cy * f.mapW ≤ (f.mapH - 1) * f.mapW :=
    mul_le_mul_of_nonneg_right (by omega) (by omega)
  constructor
  · omega
  · nlinarith

theorem accessOk_of_inGrid (f : FrameConsts) (s : ColState) (h : InGrid f s) :
    AccessOk f { idx := s.idx, cellX := s.cellX, cellY := s.cellY } := by
  obtain ⟨h1, h2, h3, h4, h5⟩ := h
  obtain ⟨k1, k2⟩ := index_in_range f s.cellX s.cellY h1 h2 h3 h4
  refine ⟨h5, h1, h2, h3, h4, ?_, ?_⟩
  · show 0 ≤ s.idx
    rw [h5]; exact k1
  · show s.idx < f.mapW * f.mapH
    rw [h5]; exact k2

theorem exitDist_ge_two (f : FrameConsts) (c : ColConsts) (s : ColState) (h : CellIn f s) :
    2 ≤ exitDist f c s := by
  obtain ⟨h1, h2, h3, h4⟩ := h
  unfold exitDist
  split_ifs <;> omega

theorem advance_fields (f : FrameConsts) (c : ColConsts) (b : Bool) (p : ColState) :
    (advance f c b p).1.cellX = (if b then p.cellX + c.stepX else p.cellX) ∧
    (advance f c b p).1.cellY = (if b then p.cellY else p.cellY + c.stepY) ∧
    (advance f c b p).1.idx
      = (if b then wrapI32 (p.idx + c.stepX) else wrapI32 (p.idx + c.yStride)) := by
  unfold advance
  cases b <;> simp <;> split_ifs <;> simp

/-- The traversal step from a cell of the grid: either it stays in the grid,
one step nearer to leaving it, or it leaves the loop with the cell outside. -/
theorem advance_cells (f : FrameConsts) (c : ColConsts) (hc : StepsOk c)
    (hW : f.mapW ≤ INT_MAX) (hH : f.mapH ≤ INT_MAX) (b : Bool) (p : ColState)
    (hp : CellIn f p) :
    ((advance f c b p).2 = none ∧ CellIn f (advance f c b p).1 ∧
      exitDist f c (advance f c b p).1 + 1 = exitDist f c p) ∨
    ((advance f c b p).2 = some Stop.leftGrid ∧
      ¬ (0 ≤ (advance f c b p).1.cellX ∧ (advance f c b p).1.cellX < f.mapW ∧
         0 ≤ (advance f c b p).1.cellY ∧ (advance f c b p).1.cellY < f.mapH)) := by
  obtain ⟨h1, h2, h3, h4⟩ := hp
  obtain ⟨hsx, hsy⟩ := hc
  unfold INT_MAX at hW hH
  cases b
  · -- step in y
    by_cases hout : u32 (p.cellY + c.stepY) ≥ u32 f.mapH
    · right
      simp only [advance, hout, if_true]
      refine ⟨by simp, ?_⟩
      simp only [Bool.false_eq_true, if_false]
      unfold u32 at hout
      omega
    · left
      simp only [advance, hout, if_false, Bool.false_eq_true]
      refine ⟨trivial, ?_, ?_⟩
      · unfold u32 at hout
        exact ⟨h1, h2, by show 0 ≤ p.cellY + c.stepY; omega,
          by show p.cellY + c.stepY < f.mapH; omega⟩
      · unfold u32 at hout
        unfold exitDist
        show _ + (if c.stepY = 1 then f.mapH - (p.cellY + c.stepY)
          else (p.cellY + c.stepY) + 1) + 1 = _
        rcases hsy with hsy | hsy <;> simp [hsy] <;> omega
  · -- step in x
    by_cases hout : u32 (p.cellX + c.stepX) ≥ u32 f.mapW
    · right
      simp only [advance, hout, if_true]
      refine ⟨by simp, ?_⟩
      unfold u32 at hout
      omega
    · left
      simp only [advance, hout, if_false, if_true]
      refine ⟨trivial, ?_, ?_⟩
      · unfold u32 at hout
        exact ⟨by show 0 ≤ p.cellX + c.stepX; omega,
          by show p.cellX + c.stepX < f.mapW; omega, h3, h4⟩
      · unfold u32 at hout
        unfold exitDist
        show (if c.stepX = 1 then f.mapW - (p.cellX + c.stepX)
          else (p.cellX + c.stepX) + 1) + _ + 1 = _
        rcases hsx with hsx | hsx <;> simp [hsx] <;> omega

/-- When the grid has at most `INT_MAX` cells, a traversal step that stays in
the grid keeps `idx` the index of the cell. -/
theorem advance_idx (f : FrameConsts) (c : ColConsts)
    (hst : c.yStride = c.stepY * f.mapW) (hWH : f.mapW * f.mapH ≤ INT_MAX)
    (b : Bool) (p : ColState) (hp : InGrid f p) (hn : CellIn f (advance f c b p).1) :
    InGrid f (advance f c b p).1 := by
  obtain ⟨_, _, _, _, h5⟩ := hp
  obtain ⟨n1, n2, n3, n4⟩ := hn
  obtain ⟨k1, k2⟩ := index_in_range f _ _ n1 n2 n3 n4
  refine ⟨n1, n2, n3, n4, ?_⟩
  obtain ⟨a1, a2, a3⟩ := advance_fields f c b p
  rw [a1, a2] at k1 k2 ⊢
  rw [a3]
  cases b
  · simp only [Bool.false_eq_true, if_false] at k1 k2 ⊢
    have he : p.idx + c.yStride = p.cellX + (p.cellY + c.stepY) * f.mapW := by
      rw [h5, hst]; ring
    rw [he]
    exact wrapI32_of_range _ (by omega) (by omega)
  · simp only [if_true] at k1 k2 ⊢
    have he : p.idx + c.stepX = p.cellX + c.stepX + p.cellY * f.mapW := by
      rw [h5]; ring
    rw [he]
    exact wrapI32_of_range _ (by omega) (by omega)

/-- One iteration from a cell of the grid: the loop goes on inside the grid,
or is left because the cell stepped to is outside, or is left by the early
exit. -/
theorem colStep_cells (f : FrameConsts) (c : ColConsts) (hc : StepsOk c)
    (hW : f.mapW ≤ INT_MAX) (hH : f.mapH ≤ INT_MAX) (s : ColState) (hs : CellIn f s) :
    ((colStep f c s).2 = none ∧ CellIn f (colStep f c s).1 ∧
      exitDist f c (colStep f c s).1 + 1 = exitDist f c s) ∨
    ((colStep f c s).2 = some Stop.leftGrid ∧
      ¬ (0 ≤ (colStep f c s).1.cellX ∧ (colStep f c s).1.cellX < f.mapW ∧
         0 ≤ (colStep f c s).1.cellY ∧ (colStep f c s).1.cellY < f.mapH)) ∨
    ((colStep f c s).2 = some Stop.columnDone ∧ (project f c s).2 = true) := by
  by_cases hd : (project f c s).2 = true
  · right; right
    simp [colStep, hd]
  · obtain ⟨k1, k2, _, _, _, _⟩ := project_keeps f c s
    have hp : CellIn f (project f c s).1 := by
      unfold CellIn
      rw [k1, k2]
      exact hs
    have hcell : exitDist f c (project f c s).1 = exitDist f c s := by
      unfold exitDist
      rw [k1, k2]
    have hstep : colStep f c s = advance f c (stepInX s) (project f c s).1 := by
      simp [colStep, hd]
    rw [hstep]
    rcases advance_cells f c hc hW hH (stepInX s) _ hp with h | h
    · left
      rw [← hcell]
      exact h
    · right; left
      exact h

/-- When the grid has at most `INT_MAX` cells, an iteration after which the
loop goes on keeps `idx` the index of the cell. -/
theorem colStep_inGrid (f : FrameConsts) (c : ColConsts) (hc : StepsOk c)
    (hst : c.yStride = c.stepY * f.mapW) (hW : f.mapW ≤ INT_MAX) (hH : f.mapH ≤ INT_MAX)
    (hWH : f.mapW * f.mapH ≤ INT_MAX) (s s1 : ColState) (hs : InGrid f s)
    (hstep : colStep f c s = (s1, none)) : InGrid f s1 := by
  have hcell : CellIn f s := ⟨hs.1, hs.2.1, hs.2.2.1, hs.2.2.2.1⟩
  have hd : ¬ (project f c s).2 = true := by
    intro hd
    simp [colStep, hd] at hstep
  have hadv : colStep f c s = advance f c (stepInX s) (project f c s).1 := by
    simp [colStep, hd]
  obtain ⟨k1, k2, k3, _, _, _⟩ := project_keeps f c s
  have hp : InGrid f (project f c s).1 := by
    unfold InGrid
    rw [k1, k2, k3]
    exact hs
  have hn : CellIn f (advance f c (stepInX s) (project f c s).1).1 := by
    rcases colStep_cells f c hc hW hH s hcell with h | h | h
    · rw [hadv] at h; exact h.2.1
    · rw [hstep] at h; simp at h
    · rw [hstep] at h; simp at h
  have := advance_idx f c hst hWH (stepInX s) _ hp hn
  rw [← hadv, hstep] at this
  exact this

theorem colStep_reads (f : FrameConsts) (c : ColConsts) (s : ColState) (a : Access)
    (ha : a ∈ (colStep f c s).1.reads) :
    a ∈ s.reads ∨ a = { idx := s.idx, cellX := s.cellX, cellY := s.cellY } := by
  unfold colStep at ha
  split_ifs at ha
  · exact project_reads f c s a ha
  · rw [advance_reads] at ha
    exact project_reads f c s a ha

theorem project_done (f : FrameConsts) (c : ColConsts) (s : ColState)
    (h : (project f c s).2 = true) :
    (cellHeight f s : ℚ) > requiredHeight f c s ∧ yInt f c s > s.highestSeenY ∧
    yInt f c s ≥ f.winH := by
  by_cases h1 : (cellHeight f s : ℚ) > requiredHeight f c s
  · by_cases h2 : yInt f c s > s.highestSeenY
    · have h2' : yInt f c s > (noteVisit s).highestSeenY := h2
      refine ⟨h1, h2, ?_⟩
      simpa [project, h1, paint, h2'] using h
    · have h2' : ¬ yInt f c s > (noteVisit s).highestSeenY := h2
      simp [project, h1, paint, h2'] at h
  · simp [project, h1] at h

/-! ## Facts about the loop -/

theorem colRun_succ_stop (f : FrameConsts) (c : ColConsts) (n : Nat) (s s1 : ColState)
    (r : Stop) (h : colStep f c s = (s1, some r)) : colRun f c (n + 1) s = (s1, some r) := by
  simp [colRun, h]

theorem colRun_succ_go (f : FrameConsts) (c : ColConsts) (n : Nat) (s s1 : ColState)
    (h : colStep f c s = (s1, none)) : colRun f c (n + 1) s = colRun f c n s1 := by
  simp [colRun, h]

theorem colStateAt_succ_go (f : FrameConsts) (c : ColConsts) (n : Nat) (s s1 : ColState)
    (h : colStep f c s = (s1, none)) : colStateAt f c (n + 1) s = colStateAt f c n s1 := by
  simp [colStateAt, h]

theorem colStateAt_succ_stop (f : FrameConsts) (c : ColConsts) (n : Nat) (s s1 : ColState)
    (r : Stop) (h : colStep f c s = (s1, some r)) : colStateAt f c (n + 1) s = none := by
  simp [colStateAt, h]

/-- When the grid has at most `INT_MAX` cells, every array access recorded by
the loop started at a cell of the grid is an access at a cell of the grid with
that cell's index. -/
theorem colRun_reads_ok (f : FrameConsts) (c : ColConsts) (hc : StepsOk c)
    (hst : c.yStride = c.stepY * f.mapW) (hW : f.mapW ≤ INT_MAX) (hH : f.mapH ≤ INT_MAX)
    (hWH : f.mapW * f.mapH ≤ INT_MAX) :
    ∀ (n : Nat) (s : ColState), InGrid f s → (∀ a ∈ s.reads, AccessOk f a) →
      ∀ a ∈ (colRun f c n s).1.reads, AccessOk f a := by
  intro n
  induction n with
  | zero => intro s _ hr a ha; exact hr a ha
  | succ n ih =>
    intro s hs hr
    have hreads : ∀ a ∈ (colStep f c s).1.reads, AccessOk f a := by
      intro a ha
      rcases colStep_reads f c s a ha with h | h
      · exact hr a h
      · rw [h]; exact accessOk_of_inGrid f s hs
    rcases hstep : colStep f c s with ⟨s1, r⟩
    rw [hstep] at hreads
    cases r with
    | some r =>
      rw [colRun_succ_stop f c n s s1 r hstep]
      exact hreads
    | none =>
      rw [colRun_succ_go f c n s s1 hstep]
      exact ih s1 (colStep_inGrid f c hc hst hW hH hWH s s1 hs hstep) hreads

/-- Every array access recorded by the loop started at a cell of the grid is
made at a cell of the grid. -/
theorem colRun_reads_cells (f : FrameConsts) (c : ColConsts) (hc : StepsOk c)
    (hW : f.mapW ≤ INT_MAX) (hH : f.mapH ≤ INT_MAX) :
    ∀ (n : Nat) (s : ColState), CellIn f s → (∀ a ∈ s.reads, AccessCellOk f a) →
      ∀ a ∈ (colRun f c n s).1.reads, AccessCellOk f a := by
  intro n
  induction n with
  | zero => intro s _ hr a ha; exact hr a ha
  | succ n ih =>
    intro s hs hr
    have hreads : ∀ a ∈ (colStep f c s).1.reads, AccessCellOk f a := by
      intro a ha
      rcases colStep_reads f c s a ha with h | h
      · exact hr a h
      · rw [h]; exact hs
    rcases hstep : colStep f c s with ⟨s1, r⟩
    rw [hstep] at hreads
    cases r with
    | some r =>
      rw [colRun_succ_stop f c n s s1 r hstep]
      exact hreads
    | none =>
      rw [colRun_succ_go f c n s s1 hstep]
      have hg := colStep_cells f c hc hW hH s hs
      rw [hstep] at hg
      rcases hg with ⟨_, hin, _⟩ | ⟨h, _⟩ | ⟨h, _⟩
      · exact ih s1 hin hreads
      · simp at h
      · simp at h

/-- The loop started at a cell of the grid is left after at most `n` iterations
when `exitDist ≤ n + 1`. -/
theorem colRun_stops (f : FrameConsts) (c : ColConsts) (hc : StepsOk c)
    (hW : f.mapW ≤ INT_MAX) (hH : f.mapH ≤ INT_MAX) :
    ∀ (n : Nat) (s : ColState), CellIn f s → exitDist f c s ≤ (n : Int) + 1 →
      ∃ (k : Nat) (sf : ColState) (r : Stop), 1 ≤ k ∧ k ≤ n ∧
        (∀ j, j < k → (colRun f c j s).2 = none) ∧
        (∀ j, k ≤ j → colRun f c j s = (sf, some r)) ∧
        (r = Stop.leftGrid →
          ¬ (0 ≤ sf.cellX ∧ sf.cellX < f.mapW ∧ 0 ≤ sf.cellY ∧ sf.cellY < f.mapH)) ∧
        (r = Stop.columnDone →
          ∃ sl, colStateAt f c (k - 1) s = some sl ∧ yInt f c sl ≥ f.winH) := by
  intro n
  induction n with
  | zero =>
    intro s hs hd
    have := exitDist_ge_two f c s hs
    omega
  | succ n ih =>
    intro s hs hd
    have hg := colStep_cells f c hc hW hH s hs
    rcases hstep : colStep f c s with ⟨s1, r⟩
    rw [hstep] at hg
    have hstop : ∀ r', r = some r' →
        (r' = Stop.leftGrid →
          ¬ (0 ≤ s1.cellX ∧ s1.cellX < f.mapW ∧ 0 ≤ s1.cellY ∧ s1.cellY < f.mapH)) →
        (r' = Stop.columnDone → yInt f c s ≥ f.winH) →
        ∃ (k : Nat) (sf : ColState) (r : Stop), 1 ≤ k ∧ k ≤ n + 1 ∧
          (∀ j, j < k → (colRun f c j s).2 = none) ∧
          (∀ j, k ≤ j → colRun f c j s = (sf, some r)) ∧
          (r = Stop.leftGrid →
            ¬ (0 ≤ sf.cellX ∧ sf.cellX < f.mapW ∧ 0 ≤ sf.cellY ∧ sf.cellY < f.mapH)) ∧
          (r = Stop.columnDone →
            ∃ sl, colStateAt f c (k - 1) s = some sl ∧ yInt f c sl ≥ f.winH) := by
      intro r' hr' hout hdone
      subst hr'
      refine ⟨1, s1, r', le_refl 1, by omega, ?_, ?_, hout, ?_⟩
      · intro j hj
        have : j = 0 := by omega
        subst this
        rfl
      · intro j hj
        obtain ⟨j', rfl⟩ : ∃ j', j = j' + 1 := ⟨j - 1, by omega⟩
        exact colRun_succ_stop f c j' s s1 r' hstep
      · intro hr
        exact ⟨s, rfl, hdone hr⟩
    rcases hg with ⟨hnone, hin, hdist⟩ | ⟨hleft, hout⟩ | ⟨hdone, hproj⟩
    · simp only at hnone hin hdist
      subst hnone
      obtain ⟨k, sf, r, hk1, hkn, hbefore, hafter, hout, hdone⟩ := ih s1 hin (by omega)
      refine ⟨k + 1, sf, r, by omega, by omega, ?_, ?_, hout, ?_⟩
      · intro j hj
        cases j with
        | zero => rfl
        | succ j =>
          rw [colRun_succ_go f c j s s1 hstep]
          exact hbefore j (by omega)
      · intro j hj
        obtain ⟨j', rfl⟩ : ∃ j', j = j' + 1 := ⟨j - 1, by omega⟩
        rw [colRun_succ_go f c j' s s1 hstep]
        exact hafter j' (by omega)
      · intro hr
        obtain ⟨sl, hsl, hy⟩ := hdone hr
        refine ⟨sl, ?_, hy⟩
        obtain ⟨k', rfl⟩ : ∃ k', k = k' + 1 := ⟨k - 1, by omega⟩
        simp only [Nat.add_sub_cancel] at hsl ⊢
        rw [colStateAt_succ_go f c k' s s1 hstep]
        exact hsl
    · simp only at hleft hout
      exact hstop Stop.leftGrid hleft (fun _ => hout) (fun h => by cases h)
    · simp only at hdone
      exact hstop Stop.columnDone hdone (fun h => by cases h)
        (fun _ => (project_done f c s hproj).2.2)

/-! ## Facts about the start of a column -/

theorem colInit_stepsOk (f : FrameConsts) (x : Int) (px : List Nat) :
    StepsOk (colInit f x px).1 := by
  unfold StepsOk colInit
  refine ⟨?_, ?_⟩
  · simp only
    split_ifs <;> simp
  · simp only
    split_ifs <;> simp

theorem colInit_stride (f : FrameConsts) (x : Int) (px : List Nat)
    (hW0 : 0 ≤ f.mapW) (hW : f.mapW ≤ INT_MAX) :
    (colInit f x px).1.yStride = (colInit f x px).1.stepY * f.mapW := by
  have h : (colInit f x px).1.yStride = wrapI32 ((colInit f x px).1.stepY * f.mapW) := rfl
  rw [h]
  unfold INT_MAX at hW
  rcases (colInit_stepsOk f x px).2 with hs | hs <;> rw [hs] <;>
    exact wrapI32_of_range _ (by omega) (by unfold INT_MAX; omega)

theorem colInit_cellIn (f : FrameConsts) (x : Int) (px : List Nat)
    (hx0 : 0 ≤ truncToInt f.camX) (hx1 : truncToInt f.camX < f.mapW)
    (hy0 : 0 ≤ truncToInt f.camY) (hy1 : truncToInt f.camY < f.mapH) :
    CellIn f (colInit f x px).2 :=
  ⟨hx0, hx1, hy0, hy1⟩

theorem colInit_inGrid (f : FrameConsts) (x : Int) (px : List Nat)
    (hWH : f.mapW * f.mapH ≤ INT_MAX)
    (hx0 : 0 ≤ truncToInt f.camX) (hx1 : truncToInt f.camX < f.mapW)
    (hy0 : 0 ≤ truncToInt f.camY) (hy1 : truncToInt f.camY < f.mapH) :
    InGrid f (colInit f x px).2 := by
  obtain ⟨k1, k2⟩ := index_in_range f _ _ hx0 hx1 hy0 hy1
  refine ⟨hx0, hx1, hy0, hy1, ?_⟩
  show wrapI32 (truncToInt f.camX + truncToInt f.camY * f.mapW) = _
  exact wrapI32_of_range _ (by omega) (by omega)

theorem colInit_exitDist (f : FrameConsts) (x : Int) (px : List Nat)
    (hx0 : 0 ≤ truncToInt f.camX) (hx1 : truncToInt f.camX < f.mapW)
    (hy0 : 0 ≤ truncToInt f.camY) (hy1 : truncToInt f.camY < f.mapH) :
    exitDist f (colInit f x px).1 (colInit f x px).2 ≤ f.mapW + f.mapH := by
  obtain ⟨h1, h2, h3, h4⟩ := colInit_cellIn f x px hx0 hx1 hy0 hy1
  unfold exitDist
  split_ifs <;> omega

theorem truncToInt_in_range (v : ℚ) (W : Int) (h0 : 0 ≤ ⌊v⌋) (h1 : ⌊v⌋ < W) :
    0 ≤ truncToInt v ∧ truncToInt v < W := by
  have hv : 0 ≤ v := by
    have := Int.floor_le v
    have h0' : (0 : ℚ) ≤ ((⌊v⌋ : Int) : ℚ) := by exact_mod_cast h0
    linarith
  rw [truncToInt_of_nonneg hv]
  exact ⟨h0, h1⟩

theorem floor_in_range (v : ℚ) (W : Int) (h1 : 1 ≤ v) (h2 : v ≤ ((W - 2 : Int) : ℚ)) :
    1 ≤ ⌊v⌋ ∧ ⌊v⌋ < W - 1 := by
  have ha : 1 ≤ ⌊v⌋ := Int.le_floor.mpr (by exact_mod_cast h1)
  have hb : ⌊v⌋ ≤ W - 2 := by
    have := Int.floor_le v
    have h3 : ((⌊v⌋ : Int) : ℚ) ≤ ((W - 2 : Int) : ℚ) := le_trans this h2
    exact_mod_cast h3
  omega

/-! ## Facts about the rows written -/

theorem colRun_preserves (f : FrameConsts) (c : ColConsts) (P : ColState → Prop)
    (hP : ∀ s, P s → P (colStep f c s).1) : ∀ (n : Nat) (s : ColState), P s →
      P (colRun f c n s).1 := by
  intro n
  induction n with
  | zero => intro s hs; exact hs
  | succ n ih =>
    intro s hs
    have h1 := hP s hs
    rcases hstep : colStep f c s with ⟨s1, r⟩
    rw [hstep] at h1
    cases r with
    | some r => rw [colRun_succ_stop f c n s s1 r hstep]; exact h1
    | none => rw [colRun_succ_go f c n s s1 hstep]; exact ih s1 h1

theorem fillRows_writes (winW : Int) (col : Nat) :
    ∀ (n : Nat) (y dat : Int) (px : List Nat) (ws : List (Int × Int)),
      (fillRows winW col n y dat px ws).2 =
        ws ++ (List.range n).map (fun i => (y + Int.ofNat i, dat - Int.ofNat i * winW)) := by
  intro n
  induction n with
  | zero => intro y dat px ws; simp [fillRows]
  | succ n ih =>
    intro y dat px ws
    rw [fillRows, ih, List.range_succ_eq_map, List.map_cons, List.map_map,
      List.append_assoc]
    congr 1
    simp only [List.singleton_append, Int.ofNat_eq_coe, Nat.cast_zero, add_zero, zero_mul,
      sub_zero, List.cons.injEq, true_and]
    apply List.map_congr_left
    intro i _
    simp only [Function.comp_apply, Nat.cast_succ, Prod.mk.injEq]
    constructor <;> ring

theorem paint_rows (f : FrameConsts) (c : ColConsts) (yI : Int) (s : ColState)
    (h : RowsInv f c s) : RowsInv f c (paint f c yI s).1 := by
  obtain ⟨h0, h1, hw⟩ := h
  unfold paint
  split_ifs with hy
  · by_cases hdone : yI ≥ f.winH
    · simp only [hdone, decide_True, if_true]
      refine ⟨by show 0 ≤ f.winH - 1; omega, by show f.winH - 1 ≤ f.winH - 1; omega, ?_⟩
      show (fillRows f.winW _ (f.winH - 1 - s.highestSeenY).toNat s.highestSeenY _ _ _).2 = _
      rw [fillRows_writes, hw]
      have hsplit : (f.winH - 1).toNat
          = s.highestSeenY.toNat + (f.winH - 1 - s.highestSeenY).toNat := by omega
      rw [hsplit, List.range_add, List.map_append, List.map_map]
      congr 1
      apply List.map_congr_left
      intro i _
      have hcast : ((s.highestSeenY.toNat : Nat) : Int) = s.highestSeenY :=
        Int.toNat_of_nonneg h0
      simp only [Function.comp_apply, Int.ofNat_eq_coe, Nat.cast_add, hcast, Prod.mk.injEq,
        true_and]
      ring
    · simp only [hdone, decide_False, if_false, Bool.false_eq_true]
      refine ⟨by show 0 ≤ yI; omega, by show yI ≤ f.winH - 1; omega, ?_⟩
      show (fillRows f.winW _ (yI - s.highestSeenY).toNat s.highestSeenY _ _ _).2 = _
      rw [fillRows_writes, hw]
      have hsplit : yI.toNat = s.highestSeenY.toNat + (yI - s.highestSeenY).toNat := by omega
      rw [hsplit, List.range_add, List.map_append, List.map_map]
      congr 1
      apply List.map_congr_left
      intro i _
      have hcast : ((s.highestSeenY.toNat : Nat) : Int) = s.highestSeenY :=
        Int.toNat_of_nonneg h0
      simp only [Function.comp_apply, Int.ofNat_eq_coe, Nat.cast_add, hcast, Prod.mk.injEq,
        true_and]
      ring
  · exact ⟨h0, h1, hw⟩

theorem advance_rows (f : FrameConsts) (c : ColConsts) (b : Bool) (p : ColState) :
    (advance f c b p).1.highestSeenY = p.highestSeenY ∧
    (advance f c b p).1.writes = p.writes ∧
    (advance f c b p).1.slopeThreshold = p.slopeThreshold ∧
    (advance f c b p).1.pixels = p.pixels := by
  unfold advance
  cases b <;> simp <;> split_ifs <;> simp

theorem colStep_rows (f : FrameConsts) (c : ColConsts) (s : ColState)
    (h : RowsInv f c s) : RowsInv f c (colStep f c s).1 := by
  have hp : RowsInv f c (project f c s).1 := by
    unfold project
    split_ifs
    · exact paint_rows f c _ (noteVisit s) h
    · exact h
  unfold colStep
  split_ifs
  · exact hp
  · obtain ⟨a1, a2, _, _⟩ := advance_rows f c (stepInX s) (project f c s).1
    unfold RowsInv
    rw [a1, a2]
    exact hp

/-! ## Facts about the states at which iterations start -/

theorem colStateAt_step (f : FrameConsts) (c : ColConsts) :
    ∀ (k : Nat) (s0 s1 : ColState), colStateAt f c (k + 1) s0 = some s1 →
      ∃ s, colStateAt f c k s0 = some s ∧ colStep f c s = (s1, none) := by
  intro k
  induction k with
  | zero =>
    intro s0 s1 h
    rcases hstep : colStep f c s0 with ⟨t, r⟩
    cases r with
    | some r => rw [colStateAt_succ_stop f c 0 s0 t r hstep] at h; cases h
    | none =>
      rw [colStateAt_succ_go f c 0 s0 t hstep] at h
      simp only [colStateAt, Option.some.injEq] at h
      subst h
      exact ⟨s0, rfl, hstep⟩
  | succ k ih =>
    intro s0 s1 h
    rcases hstep : colStep f c s0 with ⟨t, r⟩
    cases r with
    | some r => rw [colStateAt_succ_stop f c (k + 1) s0 t r hstep] at h; cases h
    | none =>
      rw [colStateAt_succ_go f c (k + 1) s0 t hstep] at h
      obtain ⟨s, hs, hs1⟩ := ih t s1 h
      exact ⟨s, by rw [colStateAt_succ_go f c k s0 t hstep]; exact hs, hs1⟩

theorem colStateAt_inv (f : FrameConsts) (c : ColConsts) (P : ColState → Prop)
    (hP : ∀ s s1, P s → colStep f c s = (s1, none) → P s1) :
    ∀ (k : Nat) (s0 s : ColState), P s0 → colStateAt f c k s0 = some s → P s := by
  intro k
  induction k with
  | zero =>
    intro s0 s h0 h
    simp only [colStateAt, Option.some.injEq] at h
    subst h
    exact h0
  | succ k ih =>
    intro s0 s h0 h
    obtain ⟨t, ht, hstep⟩ := colStateAt_step f c k s0 s h
    exact hP t s (ih s0 t h0 ht) hstep

theorem colStep_go (f : FrameConsts) (c : ColConsts) (s s1 : ColState)
    (h : colStep f c s = (s1, none)) :
    (project f c s).2 = false ∧ s1 = (advance f c (stepInX s) (project f c s).1).1 := by
  unfold colStep at h
  split_ifs at h with hd
  · cases h
  · exact ⟨by simpa using hd, by rw [h]⟩

/-! ## Facts about the distances -/

theorem advance_t (f : FrameConsts) (c : ColConsts) (p : ColState)
    (hdx : 0 ≤ c.tDeltaX) (hdy : 0 ≤ c.tDeltaY) (h : TInv p) :
    TInv (advance f c (stepInX p) p).1 ∧ p.tCur ≤ (advance f c (stepInX p) p).1.tCur := by
  obtain ⟨h1, h2⟩ := h
  by_cases hlt : p.tMaxX < p.tMaxY
  · have hb : stepInX p = true := by simp [stepInX, hlt]
    rw [hb]
    unfold advance TInv
    simp only [if_true]
    split_ifs <;> refine ⟨⟨?_, ?_⟩, ?_⟩ <;> simp only <;> linarith
  · have hb : stepInX p = false := by simp [stepInX, hlt]
    rw [hb]
    unfold advance TInv
    simp only [Bool.false_eq_true, if_false]
    push_neg at hlt
    split_ifs <;> refine ⟨⟨?_, ?_⟩, ?_⟩ <;> simp only <;> linarith

theorem stepInX_project (f : FrameConsts) (c : ColConsts) (s : ColState) :
    stepInX (project f c s).1 = stepInX s := by
  obtain ⟨_, _, _, k4, k5, _⟩ := project_keeps f c s
  unfold stepInX
  rw [k4, k5]

theorem colStep_t (f : FrameConsts) (c : ColConsts) (hdx : 0 ≤ c.tDeltaX)
    (hdy : 0 ≤ c.tDeltaY) (s s1 : ColState) (h : TInv s)
    (hstep : colStep f c s = (s1, none)) : TInv s1 ∧ s.tCur ≤ s1.tCur := by
  obtain ⟨_, hs1⟩ := colStep_go f c s s1 hstep
  obtain ⟨_, _, _, k4, k5, k6⟩ := project_keeps f c s
  have hp : TInv (project f c s).1 := by
    unfold TInv
    rw [k4, k5, k6]
    exact h
  have := advance_t f c (project f c s).1 hdx hdy hp
  rw [stepInX_project, k6, ← hs1] at this
  exact this

theorem tMax0_nonneg (cam d : ℚ) (hcam : 0 ≤ cam) :
    0 ≤ (((truncToInt cam + (if (if d ≥ 0 then (1 : Int) else -1) > 0 then 1 else 0) : Int)
            : ℚ) - cam) * (if d ≠ 0 then 1 / d else HUGE) := by
  rw [truncToInt_of_nonneg hcam]
  have hfl := Int.floor_le cam
  have hfl1 := Int.lt_floor_add_one cam
  rcases lt_trichotomy d 0 with h | h | h
  · have h1 : ¬ d ≥ 0 := not_le.mpr h
    have h2 : d ≠ 0 := ne_of_lt h
    simp only [h1, if_false, h2, ne_eq, not_false_eq_true, if_true]
    apply mul_nonneg_of_nonpos_of_nonpos
    · norm_num
      linarith
    · exact one_div_nonpos.mpr (le_of_lt h)
  · subst h
    simp only [ge_iff_le, le_refl, if_true, ne_eq, not_true_eq_false, if_false]
    apply mul_nonneg
    · norm_num
      linarith
    · unfold HUGE; norm_num
  · have h1 : d ≥ 0 := le_of_lt h
    have h2 : d ≠ 0 := ne_of_gt h
    simp only [h1, if_true, h2, ne_eq, not_false_eq_true]
    apply mul_nonneg
    · norm_num
      linarith
    · exact one_div_nonneg.mpr h1

theorem colInit_t (f : FrameConsts) (x : Int) (px : List Nat)
    (hx : 0 ≤ f.camX) (hy : 0 ≤ f.camY) : TInv (colInit f x px).2 :=
  ⟨tMax0_nonneg f.camX _ hx, tMax0_nonneg f.camY _ hy⟩

theorem colInit_tDelta (f : FrameConsts) (x : Int) (px : List Nat) :
    0 ≤ (colInit f x px).1.tDeltaX ∧ 0 ≤ (colInit f x px).1.tDeltaY :=
  ⟨abs_nonneg _, abs_nonneg _⟩

/-! ## Facts about the occlusion threshold -/

theorem paint_slope (f : FrameConsts) (c : ColConsts) (yI : Int) (p : ColState)
    (h : SlopeInv f p) (hnd : (paint f c yI p).2 = false) : SlopeInv f (paint f c yI p).1 := by
  unfold paint at hnd ⊢
  split_ifs at hnd ⊢ with hy
  · have hlt : ¬ yI ≥ f.winH := by simpa using hnd
    simp only [hlt, decide_False, Bool.false_eq_true, if_false]
    exact ⟨by show 0 ≤ yI; have := h.1; omega, rfl⟩
  · exact h

theorem colStep_slope (f : FrameConsts) (c : ColConsts) (s s1 : ColState)
    (h : SlopeInv f s) (hstep : colStep f c s = (s1, none)) : SlopeInv f s1 := by
  obtain ⟨hnd, hs1⟩ := colStep_go f c s s1 hstep
  have hp : SlopeInv f (project f c s).1 := by
    unfold project at hnd ⊢
    split_ifs at hnd ⊢
    · exact paint_slope f c _ (noteVisit s) h hnd
    · exact h
  obtain ⟨a1, _, a3, _⟩ := advance_rows f c (stepInX s) (project f c s).1
  rw [hs1]
  unfold SlopeInv
  rw [a1, a3]
  exact hp

theorem colInit_slope (f : FrameConsts) (x : Int) (px : List Nat) :
    SlopeInv f (colInit f x px).2 := by
  refine ⟨le_refl 0, ?_⟩
  show (1 - f.centerY) * f.invScale = (((0 + 1 : Int) : ℚ) - f.centerY) * f.invScale
  norm_num

/-- With `scale > 0` and a positive forward distance, the projected height
`yEntry` compares with `highestSeenY + 1` as the cell height compares with
`requiredHeight`. -/
theorem yEntry_sub (f : FrameConsts) (c : ColConsts) (s : ColState)
    (hinv : f.invScale = 1 / f.scale) (hscale : 0 < f.scale) (hS : SlopeInv f s)
    (hfd : 0 < forwardDistCandidate f c s) :
    yEntry f c s - ((s.highestSeenY + 1 : Int) : ℚ)
      = f.scale * (((cellHeight f s : Int) : ℚ) - requiredHeight f c s)
          / forwardDistCandidate f c s := by
  unfold yEntry requiredHeight
  rw [hS.2, hinv]
  have h1 : f.scale ≠ 0 := ne_of_gt hscale
  have h2 : forwardDistCandidate f c s ≠ 0 := ne_of_gt hfd
  field_simp
  ring

theorem shortcut_below (f : FrameConsts) (c : ColConsts) (s : ColState)
    (hinv : f.invScale = 1 / f.scale) (hscale : 0 < f.scale) (hS : SlopeInv f s)
    (hfd : 0 < forwardDistCandidate f c s)
    (hlt : ((cellHeight f s : Int) : ℚ) < requiredHeight f c s) :
    yInt f c s ≤ s.highestSeenY := by
  have hsub := yEntry_sub f c s hinv hscale hS hfd
  have hneg : f.scale * (((cellHeight f s : Int) : ℚ) - requiredHeight f c s)
      / forwardDistCandidate f c s < 0 :=
    div_neg_of_neg_of_pos (mul_neg_of_pos_of_neg hscale (by linarith)) hfd
  have hy : yEntry f c s < ((s.highestSeenY + 1 : Int) : ℚ) := by linarith
  unfold yInt truncToInt
  split_ifs with h0
  · have : ⌊yEntry f c s⌋ < s.highestSeenY + 1 := Int.floor_lt.mpr hy
    omega
  · have hle : yEntry f c s ≤ ((0 : Int) : ℚ) := by push_cast; linarith
    have : ⌈yEntry f c s⌉ ≤ 0 := Int.ceil_le.mpr hle
    have := hS.1
    omega

theorem shortcut_at (f : FrameConsts) (c : ColConsts) (s : ColState)
    (hinv : f.invScale = 1 / f.scale) (hscale : 0 < f.scale) (hS : SlopeInv f s)
    (hfd : 0 < forwardDistCandidate f c s)
    (heq : ((cellHeight f s : Int) : ℚ) = requiredHeight f c s) :
    yInt f c s = s.highestSeenY + 1 := by
  have hsub := yEntry_sub f c s hinv hscale hS hfd
  rw [heq, sub_self, mul_zero, zero_div] at hsub
  have hy : yEntry f c s = ((s.highestSeenY + 1 : Int) : ℚ) := by linarith
  have h0 : (0 : ℚ) ≤ ((s.highestSeenY + 1 : Int) : ℚ) := by
    have := hS.1
    exact_mod_cast (by omega : (0 : Int) ≤ s.highestSeenY + 1)
  unfold yInt
  rw [hy, truncToInt_of_nonneg h0, Int.floor_intCast]

theorem shortcut_above (f : FrameConsts) (c : ColConsts) (s : ColState)
    (hinv : f.invScale = 1 / f.scale) (hscale : 0 < f.scale) (hS : SlopeInv f s)
    (hfd : 0 < forwardDistCandidate f c s)
    (hgt : ((cellHeight f s : Int) : ℚ) > requiredHeight f c s) :
    yInt f c s > s.highestSeenY := by
  have hsub := yEntry_sub f c s hinv hscale hS hfd
  have hpos : 0 < f.scale * (((cellHeight f s : Int) : ℚ) - requiredHeight f c s)
      / forwardDistCandidate f c s :=
    div_pos (mul_pos hscale (by linarith)) hfd
  have hy : ((s.highestSeenY + 1 : Int) : ℚ) ≤ yEntry f c s := by linarith
  have h0 : (0 : ℚ) ≤ ((s.highestSeenY + 1 : Int) : ℚ) := by
    have := hS.1
    exact_mod_cast (by omega : (0 : Int) ≤ s.highestSeenY + 1)
  unfold yInt
  rw [truncToInt_of_nonneg (le_trans h0 hy)]
  have : s.highestSeenY + 1 ≤ ⌊yEntry f c s⌋ := Int.le_floor.mpr hy
  omega

theorem projectAll_eq (f : FrameConsts) (c : ColConsts) (s : ColState)
    (hinv : f.invScale = 1 / f.scale) (hscale : 0 < f.scale) (hS : SlopeInv f s)
    (hfd : 0 < forwardDistCandidate f c s)
    (hne : ((cellHeight f s : Int) : ℚ) ≠ requiredHeight f c s) :
    projectAll f c s = project f c s := by
  rcases lt_or_gt_of_ne hne with hlt | hgt
  · have hy := shortcut_below f c s hinv hscale hS hfd hlt
    have hy1 : ¬ yInt f c s > (noteVisit s).highestSeenY := not_lt.mpr hy
    have hn : ¬ ((cellHeight f s : Int) : ℚ) > requiredHeight f c s := not_lt.mpr (le_of_lt hlt)
    simp only [projectAll, project, hn, if_false, paint, hy1]
  · simp only [projectAll, project, hgt, if_true]

theorem colStepAll_eq (f : FrameConsts) (c : ColConsts) (s : ColState)
    (hinv : f.invScale = 1 / f.scale) (hscale : 0 < f.scale) (hS : SlopeInv f s)
    (hfd : 0 < forwardDistCandidate f c s)
    (hne : ((cellHeight f s : Int) : ℚ) ≠ requiredHeight f c s) :
    colStepAll f c s = colStep f c s := by
  unfold colStepAll colStep
  rw [projectAll_eq f c s hinv hscale hS hfd hne]

theorem colRunAll_eq (f : FrameConsts) (c : ColConsts)
    (hinv : f.invScale = 1 / f.scale) (hscale : 0 < f.scale) :
    ∀ (n : Nat) (s : ColState), SlopeInv f s →
      (∀ k t, colStateAt f c k s = some t →
        0 < forwardDistCandidate f c t ∧ ((cellHeight f t : Int) : ℚ) ≠ requiredHeight f c t) →
      colRunAll f c n s = colRun f c n s := by
  intro n
  induction n with
  | zero => intro s _ _; rfl
  | succ n ih =>
    intro s hS hgood
    obtain ⟨hfd, hne⟩ := hgood 0 s rfl
    have hstep := colStepAll_eq f c s hinv hscale hS hfd hne
    rcases hcs : colStep f c s with ⟨s1, r⟩
    rw [hcs] at hstep
    cases r with
    | some r =>
      rw [colRun_succ_stop f c n s s1 r hcs]
      simp [colRunAll, hstep]
    | none =>
      rw [colRun_succ_go f c n s s1 hcs]
      have : colRunAll f c (n + 1) s = colRunAll f c n s1 := by simp [colRunAll, hstep]
      rw [this]
      apply ih s1 (colStep_slope f c s s1 hS hcs)
      intro k t hk
      apply hgood (k + 1) t
      rw [colStateAt_succ_go f c k s s1 hcs]
      exact hk

theorem colStateAt_none_add (f : FrameConsts) (c : ColConsts) :
    ∀ (k j : Nat) (s : ColState), colStateAt f c k s = none →
      colStateAt f c (k + j) s = none := by
  intro k
  induction k with
  | zero => intro j s h; simp [colStateAt] at h
  | succ k ih =>
    intro j s h
    have hkj : k + 1 + j = (k + j) + 1 := by omega
    rw [hkj]
    rcases hcs : colStep f c s with ⟨s1, r⟩
    cases r with
    | some r => exact colStateAt_succ_stop f c (k + j) s s1 r hcs
    | none =>
      rw [colStateAt_succ_go f c k s s1 hcs] at h
      rw [colStateAt_succ_go f c (k + j) s s1 hcs]
      exact ih j s1 h

/-! ## The frame as a whole and the loader -/

/-- With the camera in a cell of the grid, `mapW + mapH - 1` iterations per
column are enough for `renderColumns` to return a pixel buffer. -/
theorem renderColumns_returns (f : FrameConsts)
    (hW : f.mapW ≤ INT_MAX) (hH : f.mapH ≤ INT_MAX)
    (hx0 : 0 ≤ truncToInt f.camX) (hx1 : truncToInt f.camX < f.mapW)
    (hy0 : 0 ≤ truncToInt f.camY) (hy1 : truncToInt f.camY < f.mapH) :
    ∀ (n : Nat) (x : Int) (px : List Nat),
      ∃ out, renderColumns f (f.mapW + f.mapH - 1).toNat n x px = some out := by
  intro n
  induction n with
  | zero => intro x px; exact ⟨px, rfl⟩
  | succ n ih =>
    intro x px
    have hpos : 0 ≤ f.mapW + f.mapH - 1 := by omega
    have hdist := colInit_exitDist f x px hx0 hx1 hy0 hy1
    obtain ⟨k, sf, r, _, hkn, _, hafter, _, _⟩ :=
      colRun_stops f (colInit f x px).1 (colInit_stepsOk f x px) hW hH
        (f.mapW + f.mapH - 1).toNat (colInit f x px).2
        (colInit_cellIn f x px hx0 hx1 hy0 hy1)
        (by rw [Int.toNat_of_nonneg hpos]; omega)
    have hrun := hafter _ hkn
    obtain ⟨out, hout⟩ := ih (x + 1) sf.pixels
    exact ⟨out, by simp only [renderColumns, hrun]; exact hout⟩

/-- A load that fails before the grid is touched (no name, an image that
does not decode, or images of different dimensions) leaves the grid as it
was. -/
theorem load_early_failure_keeps_grid (sys : Sys) (map : MapData) (nm : String) :
    MapData_Load sys map none = (false, map) ∧
    (sys.LoadImageRGBA ("maps/" ++ nm ++ "/" ++ "Color.png") = none →
      MapData_Load sys map (some nm) = (false, map)) ∧
    (sys.LoadImageRGBA ("maps/" ++ nm ++ "/" ++ "Depth.png") = none →
      MapData_Load sys map (some nm) = (false, map)) ∧
    (∀ ci di, sys.LoadImageRGBA ("maps/" ++ nm ++ "/" ++ "Color.png") = some ci →
      sys.LoadImageRGBA ("maps/" ++ nm ++ "/" ++ "Depth.png") = some di →
      (ci.w ≠ di.w ∨ ci.h ≠ di.h) → MapData_Load sys map (some nm) = (false, map)) := by
  refine ⟨rfl, ?_, ?_, ?_⟩
  · intro h
    simp only [MapData_Load, h]
  · intro h
    simp only [MapData_Load, h]
    split <;> rfl
  · intro ci di hc hd hne
    simp only [MapData_Load, hc, hd, ne_eq, hne, if_true]

/-- A load whose images decode with equal dimensions and whose first or
second `malloc` fails returns `false` with the grid emptied. -/
theorem load_alloc_failure_empties_grid (sys : Sys) (map : MapData) (nm : String)
    (ci di : ImageRGBA)
    (hc : sys.LoadImageRGBA ("maps/" ++ nm ++ "/" ++ "Color.png") = some ci)
    (hd : sys.LoadImageRGBA ("maps/" ++ nm ++ "/" ++ "Depth.png") = some di)
    (hw : ci.w = di.w) (hh : ci.h = di.h)
    (hm : sys.mallocColor = false ∨ sys.mallocDepth = false) :
    MapData_Load sys map (some nm)
      = (false, { w := 0, h := 0, color := none, depth := none }) := by
  have hne : ¬ (ci.w ≠ di.w ∨ ci.h ≠ di.h) := by simp [hw, hh]
  have hfail : (!sys.mallocColor || !sys.mallocDepth) = true := by
    rcases hm with h | h <;> simp [h]
  simp only [MapData_Load, hc, hd, hne, if_false, hfail, if_true, MapData_Clear]

/-! ## C3: the grid accesses of the traversal -/

/-- C3 as stated fails. `hugeDemo` is a 50000x50000 grid with the camera at
(49997.5, 49997.5), inside `1 ≤ x ≤ W-2`, `1 ≤ y ≤ H-2`. The index of the
camera's cell, `49997 + 49997*50000 = 2499899997`, does not fit the 32-bit
`int idx`, which holds -1795067299: the first height read uses an index that
is neither `cellX + cellY*W` nor inside `[0, W*H)`. -/
theorem idx_overflows_on_huge_grid :
    (1 ≤ hugeDemo.cam.x ∧ hugeDemo.cam.x ≤ ((hugeDemo.map.w - 2 : Int) : ℚ) ∧
      1 ≤ hugeDemo.cam.y ∧ hugeDemo.cam.y ≤ ((hugeDemo.map.h - 2 : Int) : ℚ)) ∧
    (colRun (frameConsts axisLibm hugeDemo) (colConsts axisLibm hugeDemo 0) 1
        (colStart axisLibm hugeDemo 0 [0, 0, 0, 0])).1.reads
      = [{ idx := -1795067299, cellX := 49997, cellY := 49997 }] ∧
    ¬ ((-1795067299 : Int) = 49997 + 49997 * hugeDemo.map.w) ∧
    ¬ ((0 : Int) ≤ -1795067299) := by
  decide!

/-- C3, amended. For every grid with at most `INT_MAX = 2^31 - 1` cells
(`W*H ≤ INT_MAX`), every camera with `1 ≤ x ≤ W-2` and `1 ≤ y ≤ H-2` and
every screen column, each height read and each colour read of the traversal,
however long it runs, uses an index `idx` with `idx = cellX + cellY*W`,
`0 ≤ cellX < W`, `0 ≤ cellY < H`, hence `0 ≤ idx < W*H`. -/
theorem grid_accesses_in_bounds (m : Libm) (app : App) (x : Int) (px : List Nat) (n : Nat)
    (hWH : app.map.w * app.map.h ≤ INT_MAX)
    (hx1 : 1 ≤ app.cam.x) (hx2 : app.cam.x ≤ ((app.map.w - 2 : Int) : ℚ))
    (hy1 : 1 ≤ app.cam.y) (hy2 : app.cam.y ≤ ((app.map.h - 2 : Int) : ℚ)) :
    ∀ a ∈ (colRun (frameConsts m app) (colConsts m app x) n (colStart m app x px)).1.reads,
      a.idx = a.cellX + a.cellY * app.map.w ∧ 0 ≤ a.cellX ∧ a.cellX < app.map.w ∧
      0 ≤ a.cellY ∧ a.cellY < app.map.h ∧ 0 ≤ a.idx ∧ a.idx < app.map.w * app.map.h := by
  have hfx := floor_in_range app.cam.x app.map.w hx1 hx2
  have hfy := floor_in_range app.cam.y app.map.h hy1 hy2
  have htx := truncToInt_in_range app.cam.x app.map.w (by omega) (by omega)
  have hty := truncToInt_in_range app.cam.y app.map.h (by omega) (by omega)
  have hW3 : 3 ≤ app.map.w := by omega
  have hH3 : 3 ≤ app.map.h := by omega
  have hWmax : app.map.w ≤ INT_MAX := by nlinarith
  have hHmax : app.map.h ≤ INT_MAX := by nlinarith
  have hin : InGrid (frameConsts m app) (colStart m app x px) :=
    colInit_inGrid (frameConsts m app) x px hWH htx.1 htx.2 hty.1 hty.2
  intro a ha
  exact colRun_reads_ok (frameConsts m app) (colConsts m app x)
    (colInit_stepsOk (frameConsts m app) x [])
    (colInit_stride (frameConsts m app) x [] (by show 0 ≤ app.map.w; omega) hWmax)
    hWmax hHmax hWH n (colStart m app x px) hin
    (by intro b hb; cases hb) a ha

theorem grid_accesses_in_bounds_witness :
    (wallDemo.map.w * wallDemo.map.h ≤ INT_MAX ∧
     1 ≤ wallDemo.cam.x ∧ wallDemo.cam.x ≤ ((wallDemo.map.w - 2 : Int) : ℚ) ∧
     1 ≤ wallDemo.cam.y ∧ wallDemo.cam.y ≤ ((wallDemo.map.h - 2 : Int) : ℚ)) ∧
    ∀ a ∈ (colRun (frameConsts axisLibm wallDemo) (colConsts axisLibm wallDemo 1) 10
        (colStart axisLibm wallDemo 1 [0, 0, 0, 0])).1.reads,
      a.idx = a.cellX + a.cellY * wallDemo.map.w ∧ 0 ≤ a.cellX ∧ a.cellX < wallDemo.map.w ∧
      0 ≤ a.cellY ∧ a.cellY < wallDemo.map.h ∧ 0 ≤ a.idx ∧
      a.idx < wallDemo.map.w * wallDemo.map.h :=
  ⟨by decide!,
   grid_accesses_in_bounds axisLibm wallDemo 1 [0, 0, 0, 0] 10 (by decide)
    (by decide!) (by decide!) (by decide!) (by decide!)⟩

/-! ## C9: every column terminates -/

/-- C9. For every grid (dimensions C `int`s), every camera whose starting cell
`(floor x, floor y)` lies inside the grid, every yaw, field of view and column,
the traversal loop is left at some iteration `k` with
`1 ≤ k ≤ W + H - 1`: it is still running before iteration `k` and any larger
number of iterations gives the same final state `sf` and reason `r`. All cells
visited lie inside the grid, and the loop is left either by the early exit
(the last visited cell projects to `yInt ≥ winH`) or because the step just
taken put `cellX` outside `[0, W)` or `cellY` outside `[0, H)`. -/
theorem column_terminates (m : Libm) (app : App) (x : Int) (px : List Nat)
    (hWmax : app.map.w ≤ INT_MAX) (hHmax : app.map.h ≤ INT_MAX)
    (hx0 : 0 ≤ ⌊app.cam.x⌋) (hx1 : ⌊app.cam.x⌋ < app.map.w)
    (hy0 : 0 ≤ ⌊app.cam.y⌋) (hy1 : ⌊app.cam.y⌋ < app.map.h) :
    ∃ (k : Nat) (sf : ColState) (r : Stop),
      1 ≤ k ∧ (k : Int) ≤ app.map.w + app.map.h - 1 ∧
      (∀ j, j < k →
        (colRun (frameConsts m app) (colConsts m app x) j (colStart m app x px)).2 = none) ∧
      (∀ j, k ≤ j →
        colRun (frameConsts m app) (colConsts m app x) j (colStart m app x px)
          = (sf, some r)) ∧
      (∀ a ∈ sf.reads,
        0 ≤ a.cellX ∧ a.cellX < app.map.w ∧ 0 ≤ a.cellY ∧ a.cellY < app.map.h) ∧
      (r = Stop.leftGrid →
        ¬ (0 ≤ sf.cellX ∧ sf.cellX < app.map.w ∧ 0 ≤ sf.cellY ∧ sf.cellY < app.map.h)) ∧
      (r = Stop.columnDone →
        ∃ sl, colStateAt (frameConsts m app) (colConsts m app x) (k - 1)
                (colStart m app x px) = some sl ∧
              yInt (frameConsts m app) (colConsts m app x) sl ≥ app.winH) := by
  have htx := truncToInt_in_range app.cam.x app.map.w hx0 hx1
  have hty := truncToInt_in_range app.cam.y app.map.h hy0 hy1
  have hin : CellIn (frameConsts m app) (colStart m app x px) :=
    colInit_cellIn (frameConsts m app) x px htx.1 htx.2 hty.1 hty.2
  have hsteps : StepsOk (colConsts m app x) :=
    colInit_stepsOk (frameConsts m app) x []
  have hdist : exitDist (frameConsts m app) (colConsts m app x) (colStart m app x px)
      ≤ app.map.w + app.map.h :=
    colInit_exitDist (frameConsts m app) x px htx.1 htx.2 hty.1 hty.2
  have hpos : 0 ≤ app.map.w + app.map.h - 1 := by omega
  obtain ⟨k, sf, r, hk1, hkn, hbefore, hafter, hout, hdone⟩ :=
    colRun_stops (frameConsts m app) (colConsts m app x) hsteps hWmax hHmax
      (app.map.w + app.map.h - 1).toNat (colStart m app x px) hin
      (by rw [Int.toNat_of_nonneg hpos]; omega)
  refine ⟨k, sf, r, hk1, ?_, hbefore, hafter, ?_, hout, hdone⟩
  · have : ((k : Nat) : Int) ≤ (((app.map.w + app.map.h - 1).toNat : Nat) : Int) := by
      exact_mod_cast hkn
    rw [Int.toNat_of_nonneg hpos] at this
    exact this
  · intro a ha
    have hrun := hafter k (le_refl k)
    have hall := colRun_reads_cells (frameConsts m app) (colConsts m app x) hsteps hWmax
      hHmax k (colStart m app x px) hin (by intro b hb; cases hb) a
    rw [hrun] at hall
    exact hall ha

theorem column_terminates_witness :
    (0 ≤ ⌊wallDemo.cam.x⌋ ∧ ⌊wallDemo.cam.x⌋ < wallDemo.map.w ∧
     0 ≤ ⌊wallDemo.cam.y⌋ ∧ ⌊wallDemo.cam.y⌋ < wallDemo.map.h) ∧
    ∃ (k : Nat) (sf : ColState) (r : Stop),
      1 ≤ k ∧ (k : Int) ≤ wallDemo.map.w + wallDemo.map.h - 1 ∧
      (∀ j, j < k →
        (colRun (frameConsts axisLibm wallDemo) (colConsts axisLibm wallDemo 0) j
          (colStart axisLibm wallDemo 0 [0, 0, 0, 0])).2 = none) ∧
      (∀ j, k ≤ j →
        colRun (frameConsts axisLibm wallDemo) (colConsts axisLibm wallDemo 0) j
          (colStart axisLibm wallDemo 0 [0, 0, 0, 0]) = (sf, some r)) ∧
      (∀ a ∈ sf.reads,
        0 ≤ a.cellX ∧ a.cellX < wallDemo.map.w ∧ 0 ≤ a.cellY ∧ a.cellY < wallDemo.map.h) ∧
      (r = Stop.leftGrid →
        ¬ (0 ≤ sf.cellX ∧ sf.cellX < wallDemo.map.w ∧
           0 ≤ sf.cellY ∧ sf.cellY < wallDemo.map.h)) ∧
      (r = Stop.columnDone →
        ∃ sl, colStateAt (frameConsts axisLibm wallDemo) (colConsts axisLibm wallDemo 0)
                (k - 1) (colStart axisLibm wallDemo 0 [0, 0, 0, 0]) = some sl ∧
              yInt (frameConsts axisLibm wallDemo) (colConsts axisLibm wallDemo 0) sl
                ≥ wallDemo.winH) :=
  ⟨by decide!,
   column_terminates axisLibm wallDemo 0 [0, 0, 0, 0] (by decide) (by decide)
    (by decide!) (by decide!) (by decide!) (by decide!)⟩

/-! ## C4: row coverage and no overdraw -/

/-- C4. For every grid, camera, screen with `winH ≥ 1` and every column, the
pixel writes made by the traversal, however long it runs, listed in the order
they are made, are the rows `0, 1, ..., k-1` counted from the bottom of the
screen, for some `k ≤ winH`; row `i` is written at pixel
`(winH - 1 - i) * winW + x`. The written rows thus form one run starting at the
bottom row, are written bottom-up, and none is written twice. -/
theorem rows_contiguous_bottom_up (m : Libm) (app : App) (x : Int) (px : List Nat) (n : Nat)
    (hH : 1 ≤ app.winH) :
    ∃ k : Nat, (k : Int) ≤ app.winH ∧
      (colRun (frameConsts m app) (colConsts m app x) n (colStart m app x px)).1.writes
        = (List.range k).map
            (fun i => (Int.ofNat i, (app.winH - 1 - Int.ofNat i) * app.winW + x)) := by
  have h0 : RowsInv (frameConsts m app) (colConsts m app x) (colStart m app x px) := by
    refine ⟨le_refl 0, ?_, rfl⟩
    show (0 : Int) ≤ app.winH - 1
    omega
  obtain ⟨k0, k1, kw⟩ := colRun_preserves (frameConsts m app) (colConsts m app x)
    (RowsInv (frameConsts m app) (colConsts m app x))
    (colStep_rows (frameConsts m app) (colConsts m app x)) n (colStart m app x px) h0
  refine ⟨(colRun (frameConsts m app) (colConsts m app x) n
    (colStart m app x px)).1.highestSeenY.toNat, ?_, ?_⟩
  · rw [Int.toNat_of_nonneg k0]
    have : (frameConsts m app).winH = app.winH := rfl
    omega
  · rw [kw]
    apply List.map_congr_left
    intro i _
    have hcb : (colConsts m app x).columnBottom = (app.winH - 1) * app.winW + x := rfl
    have hw : (frameConsts m app).winW = app.winW := rfl
    simp only [hcb, hw, Prod.mk.injEq, true_and]
    ring

theorem rows_contiguous_bottom_up_witness :
    1 ≤ wallDemo.winH ∧
    ∃ k : Nat, (k : Int) ≤ wallDemo.winH ∧
      (colRun (frameConsts axisLibm wallDemo) (colConsts axisLibm wallDemo 1) 10
        (colStart axisLibm wallDemo 1 [0, 0, 0, 0])).1.writes
        = (List.range k).map
            (fun i => (Int.ofNat i, (wallDemo.winH - 1 - Int.ofNat i) * wallDemo.winW + 1)) :=
  ⟨by decide, rows_contiguous_bottom_up axisLibm wallDemo 1 [0, 0, 0, 0] 10 (by decide)⟩

/-! ## C8: order of the distances at the visited cells -/

/-- C8 as stated fails. In `edgeDemo` the camera is inside the grid, on the
grid line `y = 1`, and the ray of column 0 points toward smaller `y`: the
crossing distance `tMaxY` starts at 0, so the second visited cell has
`tCur = 0`, the same as the first, not a greater value. -/
theorem distance_not_strictly_increasing :
    (0 ≤ edgeDemo.cam.x ∧ edgeDemo.cam.x < 3 ∧ 0 ≤ edgeDemo.cam.y ∧ edgeDemo.cam.y < 3) ∧
    colStateAt (frameConsts axisLibm edgeDemo) (colConsts axisLibm edgeDemo 0) 1
        (colStart axisLibm edgeDemo 0 [0, 0, 0, 0])
      = some (colRun (frameConsts axisLibm edgeDemo) (colConsts axisLibm edgeDemo 0) 1
          (colStart axisLibm edgeDemo 0 [0, 0, 0, 0])).1 ∧
    ¬ ((colStart axisLibm edgeDemo 0 [0, 0, 0, 0]).tCur
        < (colRun (frameConsts axisLibm edgeDemo) (colConsts axisLibm edgeDemo 0) 1
            (colStart axisLibm edgeDemo 0 [0, 0, 0, 0])).1.tCur) := by
  decide!

/-- C8, amended. For every grid, every camera with `x ≥ 0` and `y ≥ 0` (as
holds for a camera inside the grid), every ray direction and column, the
distance travelled `tCur` at each visited cell is greater than or equal to
`tCur` at the cell visited just before it (in exact arithmetic). -/
theorem distance_nondecreasing (m : Libm) (app : App) (x : Int) (px : List Nat)
    (hx0 : 0 ≤ app.cam.x) (hy0 : 0 ≤ app.cam.y) (k : Nat) (s s1 : ColState)
    (h1 : colStateAt (frameConsts m app) (colConsts m app x) k (colStart m app x px) = some s)
    (h2 : colStateAt (frameConsts m app) (colConsts m app x) (k + 1) (colStart m app x px)
      = some s1) :
    s.tCur ≤ s1.tCur := by
  obtain ⟨hdx, hdy⟩ := colInit_tDelta (frameConsts m app) x []
  have hinv : TInv s :=
    colStateAt_inv (frameConsts m app) (colConsts m app x) TInv
      (fun a b ha hab => (colStep_t _ _ hdx hdy a b ha hab).1) k (colStart m app x px) s
      (colInit_t (frameConsts m app) x px hx0 hy0) h1
  obtain ⟨t, ht, hstep⟩ :=
    colStateAt_step (frameConsts m app) (colConsts m app x) k (colStart m app x px) s1 h2
  rw [h1] at ht
  cases ht
  exact (colStep_t _ _ hdx hdy s s1 hinv hstep).2

theorem distance_nondecreasing_witness :
    (0 ≤ wallDemo.cam.x ∧ 0 ≤ wallDemo.cam.y) ∧
    (colStart axisLibm wallDemo 1 [0, 0, 0, 0]).tCur
      ≤ (colRun (frameConsts axisLibm wallDemo) (colConsts axisLibm wallDemo 1) 1
          (colStart axisLibm wallDemo 1 [0, 0, 0, 0])).1.tCur :=
  ⟨by decide!,
   distance_nondecreasing axisLibm wallDemo 1 [0, 0, 0, 0] (by decide!) (by decide!) 0
    (colStart axisLibm wallDemo 1 [0, 0, 0, 0])
    (colRun (frameConsts axisLibm wallDemo) (colConsts axisLibm wallDemo 1) 1
      (colStart axisLibm wallDemo 1 [0, 0, 0, 0])).1 rfl (by decide!)⟩

/-! ## C7: the occlusion shortcut -/

/-- C7 as stated fails. In `levelDemo` (column 1) the second visited cell has
`scale = 1 > 0`, `forwardDist = 3/2 > 0` and `h = 5 = requiredHeight`, so
`h ≤ requiredHeight` and the shortcut skips it, yet it projects to
`yInt = 1 > highestSeenY = 0`. The renderer leaves the whole frame at the
background colour, while the variant that projects every visited cell paints
the bottom pixel of column 1. -/
theorem shortcut_skips_visible_row :
    0 < (frameConsts axisLibm levelDemo).scale ∧
    colStateAt (frameConsts axisLibm levelDemo) (colConsts axisLibm levelDemo 1) 1
        (colStart axisLibm levelDemo 1 [0, 0, 0, 0])
      = some (colRun (frameConsts axisLibm levelDemo) (colConsts axisLibm levelDemo 1) 1
          (colStart axisLibm levelDemo 1 [0, 0, 0, 0])).1 ∧
    0 < forwardDistCandidate (frameConsts axisLibm levelDemo) (colConsts axisLibm levelDemo 1)
      (colRun (frameConsts axisLibm levelDemo) (colConsts axisLibm levelDemo 1) 1
        (colStart axisLibm levelDemo 1 [0, 0, 0, 0])).1 ∧
    ((cellHeight (frameConsts axisLibm levelDemo)
      (colRun (frameConsts axisLibm levelDemo) (colConsts axisLibm levelDemo 1) 1
        (colStart axisLibm levelDemo 1 [0, 0, 0, 0])).1 : Int) : ℚ)
      ≤ requiredHeight (frameConsts axisLibm levelDemo) (colConsts axisLibm levelDemo 1)
        (colRun (frameConsts axisLibm levelDemo) (colConsts axisLibm levelDemo 1) 1
          (colStart axisLibm levelDemo 1 [0, 0, 0, 0])).1 ∧
    ¬ (yInt (frameConsts axisLibm levelDemo) (colConsts axisLibm levelDemo 1)
        (colRun (frameConsts axisLibm levelDemo) (colConsts axisLibm levelDemo 1) 1
          (colStart axisLibm levelDemo 1 [0, 0, 0, 0])).1
      ≤ (colRun (frameConsts axisLibm levelDemo) (colConsts axisLibm levelDemo 1) 1
          (colStart axisLibm levelDemo 1 [0, 0, 0, 0])).1.highestSeenY) ∧
    (RenderVoxelSurf axisLibm levelDemo 10).map (fun a => a.framebuffer)
      = some [BACKGROUND, BACKGROUND, BACKGROUND, BACKGROUND] ∧
    (RenderVoxelSurfAll axisLibm levelDemo 10).map (fun a => a.framebuffer)
      = some [BACKGROUND, BACKGROUND, BACKGROUND, 7] := by
  decide!

/-- C7, amended. In exact arithmetic with `scale > 0`, for every state at which
an iteration of a column starts and whose cell has `forwardDist > 0`:
if `h < requiredHeight` (strictly) then `yInt ≤ highestSeenY`, and on that
iteration the renderer does exactly what the variant that projects every
visited cell does; if `h > requiredHeight` then `yInt > highestSeenY`; if
`h = requiredHeight` then `yInt = highestSeenY + 1`. Hence a column in which
every visited cell has `forwardDist > 0` and `h ≠ requiredHeight` is rendered
identically by the renderer and by the variant, for any number of
iterations. -/
theorem shortcut_sound_below_threshold (m : Libm) (app : App) (x : Int) (px : List Nat)
    (hscale : 0 < (frameConsts m app).scale) :
    (∀ k s, colStateAt (frameConsts m app) (colConsts m app x) k (colStart m app x px)
        = some s →
      0 < forwardDistCandidate (frameConsts m app) (colConsts m app x) s →
      ((cellHeight (frameConsts m app) s : Int) : ℚ)
        < requiredHeight (frameConsts m app) (colConsts m app x) s →
      yInt (frameConsts m app) (colConsts m app x) s ≤ s.highestSeenY ∧
      colStepAll (frameConsts m app) (colConsts m app x) s
        = colStep (frameConsts m app) (colConsts m app x) s) ∧
    (∀ k s, colStateAt (frameConsts m app) (colConsts m app x) k (colStart m app x px)
        = some s →
      0 < forwardDistCandidate (frameConsts m app) (colConsts m app x) s →
      ((cellHeight (frameConsts m app) s : Int) : ℚ)
        > requiredHeight (frameConsts m app) (colConsts m app x) s →
      yInt (frameConsts m app) (colConsts m app x) s > s.highestSeenY) ∧
    (∀ k s, colStateAt (frameConsts m app) (colConsts m app x) k (colStart m app x px)
        = some s →
      0 < forwardDistCandidate (frameConsts m app) (colConsts m app x) s →
      ((cellHeight (frameConsts m app) s : Int) : ℚ)
        = requiredHeight (frameConsts m app) (colConsts m app x) s →
      yInt (frameConsts m app) (colConsts m app x) s = s.highestSeenY + 1) ∧
    ((∀ k s, colStateAt (frameConsts m app) (colConsts m app x) k (colStart m app x px)
        = some s →
      0 < forwardDistCandidate (frameConsts m app) (colConsts m app x) s ∧
      ((cellHeight (frameConsts m app) s : Int) : ℚ)
        ≠ requiredHeight (frameConsts m app) (colConsts m app x) s) →
     ∀ n, colRunAll (frameConsts m app) (colConsts m app x) n (colStart m app x px)
        = colRun (frameConsts m app) (colConsts m app x) n (colStart m app x px)) := by
  have hinv : (frameConsts m app).invScale = 1 / (frameConsts m app).scale := rfl
  have hreach : ∀ k s,
      colStateAt (frameConsts m app) (colConsts m app x) k (colStart m app x px) = some s →
      SlopeInv (frameConsts m app) s := fun k s hk =>
    colStateAt_inv (frameConsts m app) (colConsts m app x) (SlopeInv (frameConsts m app))
      (fun a b ha hab => colStep_slope _ _ a b ha hab) k (colStart m app x px) s
      (colInit_slope (frameConsts m app) x px) hk
  refine ⟨?_, ?_, ?_, ?_⟩
  · intro k s hk hfd hlt
    exact ⟨shortcut_below _ _ s hinv hscale (hreach k s hk) hfd hlt,
      colStepAll_eq _ _ s hinv hscale (hreach k s hk) hfd (ne_of_lt hlt)⟩
  · intro k s hk hfd hgt
    exact shortcut_above _ _ s hinv hscale (hreach k s hk) hfd hgt
  · intro k s hk hfd heq
    exact shortcut_at _ _ s hinv hscale (hreach k s hk) hfd heq
  · intro hgood n
    exact colRunAll_eq _ _ hinv hscale n (colStart m app x px)
      (colInit_slope (frameConsts m app) x px) hgood

/-- In column 1 of `wallDemo` every visited cell has a positive forward
distance and a height different from `requiredHeight`. -/
theorem wallDemo_no_ties :
    ∀ k s, colStateAt (frameConsts axisLibm wallDemo) (colConsts axisLibm wallDemo 1) k
        (colStart axisLibm wallDemo 1 [0, 0, 0, 0]) = some s →
      0 < forwardDistCandidate (frameConsts axisLibm wallDemo)
        (colConsts axisLibm wallDemo 1) s ∧
      ((cellHeight (frameConsts axisLibm wallDemo) s : Int) : ℚ)
        ≠ requiredHeight (frameConsts axisLibm wallDemo) (colConsts axisLibm wallDemo 1) s := by
  intro k s hk
  match k with
  | 0 =>
    simp only [colStateAt, Option.some.injEq] at hk
    subst hk
    decide!
  | 1 =>
    have h1 : colStateAt (frameConsts axisLibm wallDemo) (colConsts axisLibm wallDemo 1) 1
        (colStart axisLibm wallDemo 1 [0, 0, 0, 0])
      = some (colRun (frameConsts axisLibm wallDemo) (colConsts axisLibm wallDemo 1) 1
          (colStart axisLibm wallDemo 1 [0, 0, 0, 0])).1 := by decide!
    rw [h1, Option.some.injEq] at hk
    subst hk
    decide!
  | k + 2 =>
    have h2 : colStateAt (frameConsts axisLibm wallDemo) (colConsts axisLibm wallDemo 1) 2
        (colStart axisLibm wallDemo 1 [0, 0, 0, 0]) = none := by decide!
    have h3 := colStateAt_none_add _ _ 2 k _ h2
    rw [Nat.add_comm 2 k, hk] at h3
    cases h3

theorem shortcut_sound_below_threshold_witness :
    0 < (frameConsts axisLibm wallDemo).scale ∧
    ∀ n, colRunAll (frameConsts axisLibm wallDemo) (colConsts axisLibm wallDemo 1) n
        (colStart axisLibm wallDemo 1 [0, 0, 0, 0])
      = colRun (frameConsts axisLibm wallDemo) (colConsts axisLibm wallDemo 1) n
        (colStart axisLibm wallDemo 1 [0, 0, 0, 0]) :=
  ⟨by decide!,
   (shortcut_sound_below_threshold axisLibm wallDemo 1 [0, 0, 0, 0] (by decide!)).2.2.2
    wallDemo_no_ties⟩

/-! ## C6: selection of the candidate distance -/

/-- C6 as stated fails, in both directions. In column 1 of `wallDemo`
(`camZu8 = 2`) the first visited cell has `h = 0 < camZu8` and the candidate
distance is `tNext = 1/2`, not `tCur = 0`; the second visited cell has
`h = 200 ≥ camZu8` and the candidate distance is `tCur = 1/2`, not
`tNext = 3/2`. -/
theorem candidate_distance_is_swapped :
    (cellHeight (frameConsts axisLibm wallDemo) (colStart axisLibm wallDemo 1 [0, 0, 0, 0])
        < (frameConsts axisLibm wallDemo).camZu8 ∧
      tCandidate (frameConsts axisLibm wallDemo) (colStart axisLibm wallDemo 1 [0, 0, 0, 0])
        ≠ (colStart axisLibm wallDemo 1 [0, 0, 0, 0]).tCur) ∧
    colStateAt (frameConsts axisLibm wallDemo) (colConsts axisLibm wallDemo 1) 1
        (colStart axisLibm wallDemo 1 [0, 0, 0, 0])
      = some (colRun (frameConsts axisLibm wallDemo) (colConsts axisLibm wallDemo 1) 1
          (colStart axisLibm wallDemo 1 [0, 0, 0, 0])).1 ∧
    (cellHeight (frameConsts axisLibm wallDemo)
        (colRun (frameConsts axisLibm wallDemo) (colConsts axisLibm wallDemo 1) 1
          (colStart axisLibm wallDemo 1 [0, 0, 0, 0])).1
        ≥ (frameConsts axisLibm wallDemo).camZu8 ∧
      tCandidate (frameConsts axisLibm wallDemo)
        (colRun (frameConsts axisLibm wallDemo) (colConsts axisLibm wallDemo 1) 1
          (colStart axisLibm wallDemo 1 [0, 0, 0, 0])).1
        ≠ tNext (colRun (frameConsts axisLibm wallDemo) (colConsts axisLibm wallDemo 1) 1
          (colStart axisLibm wallDemo 1 [0, 0, 0, 0])).1) := by
  decide!

/-- C6, amended. For every visited cell with height `h`, where `camZu8` is the
`float` sum camera z + 1.0f converted by `ClampU8` into `[0,255]` and `tNext` is
the smaller of the two pending crossing distances `tMaxX`, `tMaxY`: the
candidate ray distance is `tNext` when `h < camZu8` and is `tCur` when
`h ≥ camZu8`. It is the distance used for the occlusion test and for the
projection: `requiredHeight` and `yEntry` depend on the distances of the state
through the candidate distance only. -/
theorem candidate_distance_selection (m : Libm) (app : App) (x : Int) (s : ColState) :
    (frameConsts m app).camZu8 = ClampU8 (f32 (app.cam.z + 1)) ∧
    0 ≤ (frameConsts m app).camZu8 ∧ (frameConsts m app).camZu8 ≤ 255 ∧
    tNext s = min s.tMaxX s.tMaxY ∧
    (cellHeight (frameConsts m app) s < (frameConsts m app).camZu8 →
      tCandidate (frameConsts m app) s = tNext s) ∧
    (cellHeight (frameConsts m app) s ≥ (frameConsts m app).camZu8 →
      tCandidate (frameConsts m app) s = s.tCur) ∧
    (∀ t : ColState,
      tCandidate (frameConsts m app) t = tCandidate (frameConsts m app) s →
      cellHeight (frameConsts m app) t = cellHeight (frameConsts m app) s →
      t.slopeThreshold = s.slopeThreshold →
      requiredHeight (frameConsts m app) (colConsts m app x) t
        = requiredHeight (frameConsts m app) (colConsts m app x) s ∧
      yEntry (frameConsts m app) (colConsts m app x) t
        = yEntry (frameConsts m app) (colConsts m app x) s) := by
  have hz : (frameConsts m app).camZu8 = ClampU8 (f32 (app.cam.z + 1)) := rfl
  refine ⟨hz, ?_, ?_, ?_, ?_, ?_, ?_⟩
  · rw [hz]
    unfold ClampU8
    split_ifs <;> omega
  · rw [hz]
    unfold ClampU8
    split_ifs <;> omega
  · unfold tNext stepInX
    by_cases h : s.tMaxX < s.tMaxY
    · simp [h, min_eq_left (le_of_lt h)]
    · simp [h, min_eq_right (not_lt.mp h)]
  · intro h
    simp [tCandidate, h]
  · intro h
    have : ¬ cellHeight (frameConsts m app) s < (frameConsts m app).camZu8 := not_lt.mpr h
    simp [tCandidate, this]
  · intro t ht hh hsl
    unfold requiredHeight yEntry forwardDistCandidate
    rw [ht, hh, hsl]
    exact ⟨rfl, rfl⟩

theorem candidate_distance_selection_witness :
    cellHeight (frameConsts axisLibm wallDemo) (colStart axisLibm wallDemo 1 [0, 0, 0, 0])
      < (frameConsts axisLibm wallDemo).camZu8 ∧
    tCandidate (frameConsts axisLibm wallDemo) (colStart axisLibm wallDemo 1 [0, 0, 0, 0])
      = tNext (colStart axisLibm wallDemo 1 [0, 0, 0, 0]) :=
  ⟨by decide!,
   (candidate_distance_selection axisLibm wallDemo 1
      (colStart axisLibm wallDemo 1 [0, 0, 0, 0])).2.2.2.2.1 (by decide!)⟩

/-! ## C5: what a column leaves on the screen -/

/-- Whatever the input, the writes of a column stay below the top row: every
row written is a row `y < winH - 1` (counted from the bottom). -/
theorem top_row_never_written (m : Libm) (app : App) (x : Int) (px : List Nat) (n : Nat)
    (hH : 1 ≤ app.winH) :
    ∀ w ∈ (colRun (frameConsts m app) (colConsts m app x) n (colStart m app x px)).1.writes,
      w.1 < app.winH - 1 := by
  have h0 : RowsInv (frameConsts m app) (colConsts m app x) (colStart m app x px) := by
    refine ⟨le_refl 0, ?_, rfl⟩
    show (0 : Int) ≤ app.winH - 1
    omega
  obtain ⟨k0, k1, kw⟩ := colRun_preserves (frameConsts m app) (colConsts m app x)
    (RowsInv (frameConsts m app) (colConsts m app x))
    (colStep_rows (frameConsts m app) (colConsts m app x)) n (colStart m app x px) h0
  intro w hw
  rw [kw, List.mem_map] at hw
  obtain ⟨i, hi, rfl⟩ := hw
  rw [List.mem_range] at hi
  have : (frameConsts m app).winH = app.winH := rfl
  show Int.ofNat i < app.winH - 1
  simp only [Int.ofNat_eq_coe]
  omega

/-- C5 at the failing input. In `wallDemo` the wall projects to
`yInt = 399 ≥ winH = 2` in column 1 and the column is left by the early exit;
one pixel has been written (row 0, pixel 3) and the top pixel of the column
(pixel 1) still holds the background colour in the finished frame. -/
theorem early_exit_leaves_top_row_background :
    colStateAt (frameConsts axisLibm wallDemo) (colConsts axisLibm wallDemo 1) 1
        (colStart axisLibm wallDemo 1 [0, 0, 0, 0])
      = some (colRun (frameConsts axisLibm wallDemo) (colConsts axisLibm wallDemo 1) 1
          (colStart axisLibm wallDemo 1 [0, 0, 0, 0])).1 ∧
    yInt (frameConsts axisLibm wallDemo) (colConsts axisLibm wallDemo 1)
        (colRun (frameConsts axisLibm wallDemo) (colConsts axisLibm wallDemo 1) 1
          (colStart axisLibm wallDemo 1 [0, 0, 0, 0])).1 = 399 ∧
    (colRun (frameConsts axisLibm wallDemo) (colConsts axisLibm wallDemo 1) 2
        (colStart axisLibm wallDemo 1 [0, 0, 0, 0])).2 = some Stop.columnDone ∧
    (colRun (frameConsts axisLibm wallDemo) (colConsts axisLibm wallDemo 1) 2
        (colStart axisLibm wallDemo 1 [0, 0, 0, 0])).1.writes = [(0, 3)] ∧
    (RenderVoxelSurf axisLibm wallDemo 10).map (fun a => a.framebuffer)
      = some [BACKGROUND, BACKGROUND, BACKGROUND, 7] := by
  decide!

/-! ## C10: the divisor of the projection -/

/-- C10 at the failing input. `edgeDemo` meets the hypotheses of the claim: a
3x3 grid, a camera that `ClampCamera` leaves as it is, a 2x2 screen, and
library results with `cosf^2 + sinf^2 = 1` and `tanf > 0`. In column 0 the
second visited cell (height 10) passes the test `height > requiredHeight` and
its divisor `forwardDistCandidate` is 0. -/
theorem projection_divisor_zero :
    (3 ≤ edgeDemo.map.w ∧ 3 ≤ edgeDemo.map.h ∧ ClampCamera edgeDemo = edgeDemo ∧
      1 ≤ edgeDemo.cam.x ∧ edgeDemo.cam.x ≤ ((edgeDemo.map.w - 2 : Int) : ℚ) ∧
      1 ≤ edgeDemo.cam.y ∧ edgeDemo.cam.y ≤ ((edgeDemo.map.h - 2 : Int) : ℚ) ∧
      edgeDemo.cam.z ≤ 400 ∧
      ((heightAt edgeDemo.map ⌊edgeDemo.cam.x⌋ ⌊edgeDemo.cam.y⌋ : Nat) : ℚ) + 1
        ≤ edgeDemo.cam.z ∧
      1 ≤ edgeDemo.winW ∧ 1 ≤ edgeDemo.winH ∧
      axisLibm.cosf edgeDemo.cam.yaw ^ 2 + axisLibm.sinf edgeDemo.cam.yaw ^ 2 = 1 ∧
      0 < axisLibm.tanf (edgeDemo.cam.fov * (1 / 2))) ∧
    colStateAt (frameConsts axisLibm edgeDemo) (colConsts axisLibm edgeDemo 0) 1
        (colStart axisLibm edgeDemo 0 [0, 0, 0, 0])
      = some (colRun (frameConsts axisLibm edgeDemo) (colConsts axisLibm edgeDemo 0) 1
          (colStart axisLibm edgeDemo 0 [0, 0, 0, 0])).1 ∧
    ((cellHeight (frameConsts axisLibm edgeDemo)
        (colRun (frameConsts axisLibm edgeDemo) (colConsts axisLibm edgeDemo 0) 1
          (colStart axisLibm edgeDemo 0 [0, 0, 0, 0])).1 : Int) : ℚ)
      > requiredHeight (frameConsts axisLibm edgeDemo) (colConsts axisLibm edgeDemo 0)
        (colRun (frameConsts axisLibm edgeDemo) (colConsts axisLibm edgeDemo 0) 1
          (colStart axisLibm edgeDemo 0 [0, 0, 0, 0])).1 ∧
    forwardDistCandidate (frameConsts axisLibm edgeDemo) (colConsts axisLibm edgeDemo 0)
        (colRun (frameConsts axisLibm edgeDemo) (colConsts axisLibm edgeDemo 0) 1
          (colStart axisLibm edgeDemo 0 [0, 0, 0, 0])).1 = 0 := by
  decide!

/-! ## C2: a failed load and the active grid -/

/-- C2 at the failing input. With `oldMap` active, both images decoding with
equal dimensions and the first `malloc` failing, `MapData_Load` returns `false`
and leaves the grid empty (`w = h = 0`, both arrays `NULL`), not `oldMap`. -/
theorem load_alloc_failure_clears_grid :
    MapData_Load sysAllocFails oldMap (some "Ice")
      = (false, { w := 0, h := 0, color := none, depth := none }) ∧
    (MapData_Load sysAllocFails oldMap (some "Ice")).2 ≠ oldMap := by
  decide

end VoxelSurfing
